import Mathlib

/-!
The class PasswordSecurityToolkit of password-toolkit.js

A shallow embedding of the class `PasswordSecurityToolkit`.

* A JavaScript string is the list of its UTF-16 code units (`JSString`), so
  `length`, `charCodeAt`, `split('')`, indexing and the regular expressions
  (which carry no `u` flag) all work on code units, as in the source.
* Numbers that the program keeps integral (scores, lengths, hashes) are `Int`
  or `Nat`; the 32-bit wrap of `simpleHash` is explicit.
* `Math.random()` and the system clock are read from an explicit `World`.
* `Array.prototype.sort` with the coin-flip comparator of `shuffleString` is
  a parameter (`Engine`): its order is implementation-defined.
* The human-readable `feedback` strings and `timeToCrack` are presentation
  only and are not part of the embedding.
-/

set_option autoImplicit false

namespace PasswordToolkit

/-! ## Strings -/

/-- A JavaScript string: its UTF-16 code units. -/
abbrev JSString := List Nat

/-- The code units of a literal of the source (all literals are in the BMP). -/
def lit (s : String) : JSString := s.toList.map Char.toNat

/-- Embeds `String.prototype.includes`: `t` occurs in `s` as a contiguous run. -/
def includes (s t : JSString) : Bool :=
  s.tails.any (fun u => t.isPrefixOf u)

/-- Embeds `String.prototype.toLowerCase`, one code unit at a time. ASCII `A`-`Z` go to
`a`-`z`; U+0130 goes to `i` followed by U+0307 and U+212A (Kelvin sign) to `k`,
the only two non-ASCII code units whose lower case contains an ASCII unit.
Every other non-ASCII unit is left in place: its real image is again
non-ASCII and of the same length, and the program compares lower-cased text
with ASCII literals only. -/
def lowerUnit (c : Nat) : JSString :=
  if 65 ≤ c ∧ c ≤ 90 then [c + 32]
  else if c = 0x130 then [0x69, 0x307]
  else if c = 0x212A then [0x6B]
  else [c]

/-- Embeds `password.toLowerCase()`. -/
def toLowerCase (s : JSString) : JSString := s.flatMap lowerUnit

/-! ## Constructor constants -/

/-- Embeds `this.commonPasswords`. -/
def commonPasswords : List JSString :=
  [lit "password", lit "123456", lit "123456789", lit "qwerty", lit "abc123", lit "password123",
   lit "admin", lit "letmein", lit "welcome", lit "monkey", lit "1234567890", lit "dragon",
   lit "master", lit "shadow", lit "qwerty123", lit "football", lit "baseball", lit "superman",
   lit "hello", lit "freedom", lit "whatever", lit "ninja", lit "mustang", lit "maggie"]

/-- Embeds `this.characterSets`. -/
structure CharacterSets where
  lowercase : JSString
  uppercase : JSString
  numbers : JSString
  symbols : JSString
  ambiguous : JSString

/-- The value given to `this.characterSets` by the constructor. -/
def characterSets : CharacterSets where
  lowercase := lit "abcdefghijklmnopqrstuvwxyz"
  uppercase := lit "ABCDEFGHIJKLMNOPQRSTUVWXYZ"
  numbers := lit "0123456789"
  symbols := lit "!@#$%^&*()_+-=[]\x7b\x7d|;:,.<>?"
  ambiguous := lit "il1Lo0O"

/-! ## simpleHash -/

/-- Embeds `ToInt32`: wrap an integer to the signed 32-bit range. -/
def toInt32 (x : Int) : Int := (x + 2147483648) % 4294967296 - 2147483648

/-- One round of the loop of `simpleHash`:
`hash = ((hash << 5) - hash) + char; hash = hash & hash`. The shift wraps to
32 bits, the subtraction and addition are exact, `&` wraps again. -/
def hashStep (hash : Int) (char : Nat) : Int :=
  toInt32 ((toInt32 (hash * 32) - hash) + char)

/-- Hexadecimal digit (lowercase), as a code unit. -/
def hexDigit (d : Nat) : Nat := if d < 10 then 48 + d else 87 + d

/-- Embeds `Number.prototype.toString(16)` on a natural number; `fuel` bounds the
number of digits. -/
def toHexAux : Nat → Nat → JSString → JSString
  | 0, _, acc => acc
  | fuel + 1, n, acc =>
    if n < 16 then hexDigit n :: acc
    else toHexAux fuel (n / 16) (hexDigit (n % 16) :: acc)

/-- Embeds `n.toString(16)`. -/
def toHex (n : Nat) : JSString := toHexAux (n + 1) n []

/-- Embeds `simpleHash(str)`. -/
def simpleHash (str : JSString) : JSString :=
  toHex (str.foldl hashStep 0).natAbs

/-! ## Regular expressions of the analyzer -/

/-- Line terminators: the code units that `.` does not match. -/
def isLineTerminator (c : Nat) : Bool :=
  c == 10 || c == 13 || c == 0x2028 || c == 0x2029

/-- The class `\d` (without the `u` flag: ASCII digits). -/
def isDigit (c : Nat) : Bool := decide (48 ≤ c) && decide (c ≤ 57)

/-- The class `[a-z]`. -/
def isLower (c : Nat) : Bool := decide (97 ≤ c) && decide (c ≤ 122)

/-- The class `[A-Z]`. -/
def isUpper (c : Nat) : Bool := decide (65 ≤ c) && decide (c ≤ 90)

/-- The class `[!@#$%^&*()_+\-=\[\]{}|;:,.<>?]`. -/
def isSymbol (c : Nat) : Bool :=
  (lit "!@#$%^&*()_+-=[]\x7b\x7d|;:,.<>?").contains c

/-- Embeds `Canonicalize` of a case-insensitive pattern without the `u` flag: upper
case, except that a non-ASCII unit never becomes an ASCII one; non-ASCII units
are compared with ASCII pattern letters only, so they are left in place. -/
def canonicalize (c : Nat) : Nat := if isLower c then c - 32 else c

/-- The pattern literal `t` matches at the start of `s`. -/
def startsWith (s t : JSString) : Bool := t.isPrefixOf s

/-- The pattern literal `t` matches at the start of `s` under the `i` flag. -/
def startsWithIgnoreCase (s t : JSString) : Bool :=
  (t.map canonicalize).isPrefixOf (s.map canonicalize)

/-- Matches `n` digits `\d{n}` at the start of `s`: the rest of the input. -/
def digits : Nat → JSString → Option JSString
  | 0, s => some s
  | _ + 1, [] => none
  | n + 1, c :: s => if isDigit c then digits n s else none

/-- An optional literal unit `c?` at the start of `s` (greedy; the units that
can follow in these patterns differ from `c`, so no backtracking is needed). -/
def optional (c : Nat) : JSString → JSString
  | [] => []
  | d :: s => if d == c then s else d :: s

/-- A literal unit `c` at the start of `s`: the rest of the input. -/
def unit (c : Nat) : JSString → Option JSString
  | [] => none
  | d :: s => if d == c then some s else none

/-- The rest of the input is one or more copies of `block`, up to the end
(`\1+$`); `fuel` bounds the number of copies. -/
def copiesToEnd (block : JSString) : Nat → JSString → Bool
  | 0, _ => false
  | fuel + 1, s =>
    block.isPrefixOf s &&
      ((s.drop block.length).isEmpty || copiesToEnd block fuel (s.drop block.length))

/-- Pattern `/^(.)\1+$/`: all the same character. -/
def allSameCharacter : JSString → Bool
  | [] => false
  | c :: rest => !isLineTerminator c && copiesToEnd [c] rest.length rest

/-- Pattern `/^(012|123|234|345|456|567|678|789|890)+/`: sequential numbers. -/
def sequentialNumbers (s : JSString) : Bool :=
  [lit "012", lit "123", lit "234", lit "345", lit "456", lit "567", lit "678", lit "789",
   lit "890"].any (startsWith s)

/-- Pattern `/^(abc|bcd|...|xyz)+/i`: sequential letters. -/
def sequentialLetters (s : JSString) : Bool :=
  [lit "abc", lit "bcd", lit "cde", lit "def", lit "efg", lit "fgh", lit "ghi", lit "hij",
   lit "ijk", lit "jkl", lit "klm", lit "lmn", lit "mno", lit "nop", lit "opq", lit "pqr",
   lit "qrs", lit "rst", lit "stu", lit "tuv", lit "uvw", lit "vwx", lit "wxy",
   lit "xyz"].any (startsWithIgnoreCase s)

/-- Pattern `/^(.{1,3})\1+$/`: a block of one to three characters, repeated. The
greedy quantifier tries three characters first. -/
def repeatedShortPattern (s : JSString) : Bool :=
  [3, 2, 1].any fun n =>
    (s.take n).length == n && (s.take n).all (fun c => !isLineTerminator c) &&
      copiesToEnd (s.take n) s.length (s.drop n)

/-- Pattern `/^(19|20)\d{2}$/`: years. -/
def yearPattern (s : JSString) : Bool :=
  (startsWith s (lit "19") || startsWith s (lit "20")) && digits 2 (s.drop 2) == some []

/-- Pattern `/^\d{2}\/\d{2}\/\d{4}$/`: dates. -/
def datePattern (s : JSString) : Bool :=
  ((((digits 2 s).bind (unit 47)).bind (digits 2)).bind (unit 47)).bind (digits 4) == some []

/-- Pattern `/^(\d{3})-?(\d{2})-?(\d{4})$/`: SSN-like patterns. -/
def ssnPattern (s : JSString) : Bool :=
  ((((digits 3 s).map (optional 45)).bind (digits 2)).map (optional 45)).bind (digits 4)
    == some []

/-- Embeds `this.commonPatterns`, each as its `test`. -/
def commonPatterns : List (JSString → Bool) :=
  [allSameCharacter, sequentialNumbers, sequentialLetters, repeatedShortPattern,
   yearPattern, datePattern, ssnPattern]

/-- The array of names indexed inside `analyzePatterns`. -/
def patternNames : List JSString :=
  [lit "Repeated characters", lit "Sequential numbers", lit "Sequential letters",
   lit "Repeated pattern", lit "Year pattern", lit "Date pattern", lit "SSN-like pattern"]

/-- The array `keyboardPatterns` of `analyzePatterns`. -/
def keyboardPatterns : List JSString := [lit "qwerty", lit "asdf", lit "1234", lit "zxcv"]

/-! ## Analysis results -/

/-- One entry of the breach table. -/
structure BreachRecord where
  password : JSString
  breachCount : Nat
  lastSeen : Int
  deriving DecidableEq, Repr

/-- The breach table: an object keyed by hash string, as its list of own
properties. -/
abbrev BreachDatabase := List (JSString × BreachRecord)

/-- The assignment `breaches[key] = record`: a later write to the same key
replaces the earlier one. -/
def BreachDatabase.set (db : BreachDatabase) (key : JSString) (record : BreachRecord) :
    BreachDatabase :=
  (key, record) :: db.filter (fun e => e.1 != key)

/-- The property read `this.breachDatabase[hash]` (`none` is `undefined`; a hash
string consists of hexadecimal digits, so no inherited property is hit). -/
def BreachDatabase.get (db : BreachDatabase) (key : JSString) : Option BreachRecord :=
  db.lookup key

/-- The result of `analyzeLengthStrength`. -/
structure LengthReport where
  score : Int
  length : Nat
  deriving DecidableEq, Repr

/-- The result of `analyzeCharacterVariety`. -/
structure VarietyReport where
  score : Int
  hasLower : Bool
  hasUpper : Bool
  hasNumbers : Bool
  hasSymbols : Bool
  varietyCount : Nat
  deriving DecidableEq, Repr

/-- The result of `analyzePatterns`. -/
structure PatternReport where
  score : Int
  detectedPatterns : List JSString
  deriving DecidableEq, Repr

/-- The result of `checkCommonPassword`. -/
structure CommonReport where
  score : Int
  isCommon : Bool
  deriving DecidableEq, Repr

/-- The result of `checkBreachDatabase`. -/
structure BreachReport where
  isCompromised : Bool
  breachInfo : Option BreachRecord
  deriving DecidableEq, Repr

/-- The double `length * Math.log2(charsetSize)`, kept symbolic: `Math.log2(0)`
is `-Infinity`, so the product is `-Infinity` for a positive length and `NaN`
for length 0; otherwise it is the finite, non-negative number of bits
`length * log2(charsetSize)` with `charsetSize ≥ 1`. -/
inductive Entropy where
  | nan
  | negInfinity
  | bits (length charsetSize : Nat)
  deriving DecidableEq, Repr

/-- The comparison `entropy >= 0` on the double. -/
def Entropy.nonneg : Entropy → Bool
  | .bits _ _ => true
  | .negInfinity => false
  | .nan => false

/-- The labels returned by `determineStrength`. -/
inductive Strength where
  | veryWeak
  | weak
  | moderate
  | strong
  | veryStrong
  deriving DecidableEq, Repr

/-- The label as the string of the source. -/
def Strength.label : Strength → JSString
  | .veryWeak => lit "Very Weak"
  | .weak => lit "Weak"
  | .moderate => lit "Moderate"
  | .strong => lit "Strong"
  | .veryStrong => lit "Very Strong"

/-- Embeds `analysis.breakdown`. -/
structure Breakdown where
  length : LengthReport
  variety : VarietyReport
  patterns : PatternReport
  commonality : CommonReport
  breach : BreachReport
  deriving DecidableEq, Repr

/-- The object built and returned by `analyzePassword` on a non-empty string. -/
structure Analysis where
  password : JSString
  length : Nat
  strength : Strength
  score : Int
  maxScore : Int
  breakdown : Breakdown
  recommendations : List JSString
  entropy : Entropy
  isCompromised : Bool
  breachInfo : Option BreachRecord
  deriving DecidableEq, Repr

/-- What `analyzePassword` returns: the object `{ error: ... }` or an analysis. -/
inductive AnalysisResult where
  | error (message : JSString)
  | analysis (a : Analysis)
  deriving DecidableEq, Repr

/-! ## The sub-scorers -/

/-- Embeds `analyzeLengthStrength(length)`. -/
def analyzeLengthStrength (length : Nat) : LengthReport :=
  if length < 8 then { score := 0, length := length }
  else if length < 12 then { score := 15, length := length }
  else if length < 16 then { score := 25, length := length }
  else { score := 30, length := length }

/-- Embeds `analyzeCharacterVariety(password)`. -/
def analyzeCharacterVariety (password : JSString) : VarietyReport :=
  let hasLower := password.any isLower
  let hasUpper := password.any isUpper
  let hasNumbers := password.any isDigit
  let hasSymbols := password.any isSymbol
  let varietyCount := ([hasLower, hasUpper, hasNumbers, hasSymbols].filter id).length
  { score := (varietyCount : Int) * 7, hasLower := hasLower, hasUpper := hasUpper,
    hasNumbers := hasNumbers, hasSymbols := hasSymbols, varietyCount := varietyCount }

/-- One round of the first `forEach` of `analyzePatterns`: a matching pattern
costs 5 points and records `names[index]`. -/
def structuralStep (password : JSString) (acc : Int × List JSString)
    (entry : Nat × (JSString → Bool)) : Int × List JSString :=
  if entry.2 password then (acc.1 - 5, acc.2 ++ [patternNames.getD entry.1 []]) else acc

/-- One round of the second `forEach` of `analyzePatterns`. -/
def keyboardStep (password : JSString) (acc : Int × List JSString) (pattern : JSString) :
    Int × List JSString :=
  if includes (toLowerCase password) pattern then (acc.1 - 3, acc.2 ++ [lit "Keyboard pattern"])
  else acc

/-- Embeds `analyzePatterns(password)`. -/
def analyzePatterns (password : JSString) : PatternReport :=
  let afterStructural := commonPatterns.enum.foldl (structuralStep password) (20, [])
  let afterKeyboard := keyboardPatterns.foldl (keyboardStep password) afterStructural
  { score := max 0 afterKeyboard.1, detectedPatterns := afterKeyboard.2 }

/-- Embeds `checkCommonPassword(password)`. -/
def checkCommonPassword (password : JSString) : CommonReport :=
  let isCommon := commonPasswords.any fun common =>
    includes (toLowerCase password) (toLowerCase common) ||
      includes (toLowerCase common) (toLowerCase password)
  { score := if isCommon then -10 else 15, isCommon := isCommon }

/-- Embeds `checkBreachDatabase(password)`. -/
def checkBreachDatabase (db : BreachDatabase) (password : JSString) : BreachReport :=
  let breachInfo := db.get (simpleHash password)
  { isCompromised := breachInfo.isSome, breachInfo := breachInfo }

/-- Embeds `calculateEntropy(password)`. -/
def calculateEntropy (password : JSString) : Entropy :=
  let charsetSize :=
    (if password.any isLower then 26 else 0) + (if password.any isUpper then 26 else 0) +
      (if password.any isDigit then 10 else 0) + (if password.any isSymbol then 32 else 0)
  if charsetSize = 0 then (if password.length = 0 then .nan else .negInfinity)
  else .bits password.length charsetSize

/-- Embeds `determineStrength(score)`. -/
def determineStrength (score : Int) : Strength :=
  if score ≥ 80 then .veryStrong
  else if score ≥ 60 then .strong
  else if score ≥ 40 then .moderate
  else if score ≥ 20 then .weak
  else .veryWeak

/-- The conditional push of `generateRecommendations`. -/
def pushIf (cond : Bool) (text : JSString) (recommendations : List JSString) : List JSString :=
  if cond then recommendations ++ [text] else recommendations

/-- Embeds `generateRecommendations(analysis)`; it reads the breakdown and
`isCompromised` only. -/
def generateRecommendations (b : Breakdown) (isCompromised : Bool) : List JSString :=
  let r := pushIf (decide (b.length.score < 25))
    (lit "Increase password length to at least 12 characters") []
  let r :=
    if b.variety.varietyCount < 4 then
      pushIf (!b.variety.hasSymbols) (lit "Add special symbols")
        (pushIf (!b.variety.hasNumbers) (lit "Add numbers")
          (pushIf (!b.variety.hasLower) (lit "Add lowercase letters")
            (pushIf (!b.variety.hasUpper) (lit "Add uppercase letters") r)))
    else r
  let r := pushIf (decide (b.patterns.detectedPatterns.length > 0))
    (lit "Avoid predictable patterns and sequences") r
  let r := pushIf b.commonality.isCommon (lit "Avoid common passwords and dictionary words") r
  let r := pushIf isCompromised
    (lit "‚ö†Ô∏è URGENT: Change this password immediately - it has been compromised") r
  if r.length = 0 then
    r ++ [lit "Excellent password! Consider enabling 2FA for additional security"]
  else r

/-- The generation options after `{ ...defaults, ...options }`: the default
of each field is the value of the `defaults` object, so an instance that sets
some fields is the merged `config`. -/
structure Config where
  length : Int := 16
  includeUppercase : Bool := true
  includeLowercase : Bool := true
  includeNumbers : Bool := true
  includeSymbols : Bool := true
  excludeAmbiguous : Bool := false
  excludeSimilar : Bool := true
  ensureVariety : Bool := true
  deriving DecidableEq, Repr

/-- One entry of `this.passwordHistory`. -/
structure HistoryEntry where
  password : JSString
  generated : Int
  options : Config
  deriving DecidableEq, Repr

/-- The state of a toolkit instance that the methods read and write (the
other constructor fields are never assigned again). -/
structure Toolkit where
  passwordHistory : List HistoryEntry
  breachDatabase : BreachDatabase
  deriving DecidableEq, Repr

/-- Embeds `analyzePassword(password)` on a string argument. -/
def analyzePassword (tk : Toolkit) (password : JSString) : AnalysisResult :=
  if password.isEmpty then .error (lit "Password must be a non-empty string")
  else
    let score : Int := 0
    let length := analyzeLengthStrength password.length
    let score := score + length.score
    let variety := analyzeCharacterVariety password
    let score := score + variety.score
    let patterns := analyzePatterns password
    let score := score + patterns.score
    let commonality := checkCommonPassword password
    let score := score + commonality.score
    let breach := checkBreachDatabase tk.breachDatabase password
    let breakdown : Breakdown :=
      { length := length, variety := variety, patterns := patterns,
        commonality := commonality, breach := breach }
    .analysis
      { password := password, length := password.length, strength := determineStrength score,
        score := score, maxScore := 100, breakdown := breakdown,
        recommendations := generateRecommendations breakdown breach.isCompromised,
        entropy := calculateEntropy password, isCompromised := breach.isCompromised,
        breachInfo := breach.breachInfo }

/-! ## Randomness, time and the host engine -/

/-- What the program reads from outside: the successive results of
`Math.random()` and the successive readings of the clock. A result of
`Math.random()` is the double `m / 2^53` of `[0, 1)`; `random i` gives `m`,
read modulo `2^53`. -/
structure World where
  random : Nat → Nat
  clock : Nat → Int

/-- Embeds `Math.random()`: the numerator `m < 2^53` of the next result. -/
def World.nextRandom (w : World) : Nat × World :=
  (w.random 0 % 9007199254740992, { w with random := fun i => w.random (i + 1) })

/-- Embeds `Date.now()` or `new Date()`: the next clock reading in milliseconds. -/
def World.now (w : World) : Int × World :=
  (w.clock 0, { w with clock := fun i => w.clock (i + 1) })

/-- Embeds `Math.floor(Math.random() * n)` for the result `m / 2^53`, in exact
arithmetic (the rounding of the double product is not modelled; both range
over `0 .. n - 1`, and over `0` alone when `n = 0`). -/
def randomIndex (m n : Nat) : Nat := m * n / 9007199254740992

/-- The comparator `() => Math.random() - 0.5` of `shuffleString`: an integer
of the same sign as its result. -/
def coinFlip (w : World) : Int × World :=
  ((2 * (w.nextRandom.1 : Int) - 9007199254740992), w.nextRandom.2)

/-- Embeds `Array.prototype.sort` of the host, for an array of one-unit strings and
a comparator that reads the world. With a comparator that is not consistent
the order is implementation-defined; the result holds the same elements. -/
structure Engine where
  sort : (World → Int × World) → List Nat → World → List Nat × World
  sort_perm : ∀ cmp l w, (sort cmp l w).1.Perm l

/-- Insertion of `x` into `l`, asking the comparator at each step. -/
def insertWith (cmp : World → Int × World) (x : Nat) : List Nat → World → List Nat × World
  | [], w => ([x], w)
  | y :: ys, w =>
    if (cmp w).1 ≤ 0 then (x :: y :: ys, (cmp w).2)
    else ((y :: (insertWith cmp x ys (cmp w).2).1), (insertWith cmp x ys (cmp w).2).2)

/-- Insertion sort driven by the comparator. -/
def insertionSort (cmp : World → Int × World) : List Nat → World → List Nat × World
  | [], w => ([], w)
  | x :: xs, w => insertWith cmp x (insertionSort cmp xs w).1 (insertionSort cmp xs w).2

/-! ## The generator -/

/-- The outcome of a call that may throw. `outOfFuel` marks a loop of the
model that was cut before its exit test failed. -/
inductive Completion (α : Type) where
  | ok (value : α)
  | throw (message : JSString)
  | outOfFuel

/-- The filter `char => !this.characterSets.ambiguous.includes(char)` over the
units of `s`. -/
def removeAmbiguous (s : JSString) : JSString :=
  s.filter fun char => !includes characterSets.ambiguous [char]

/-- The charset of `generatePassword`: the enabled classes, then the
ambiguous filter if requested. -/
def buildCharset (config : Config) : JSString :=
  let charset : JSString := []
  let charset := if config.includeLowercase then charset ++ characterSets.lowercase else charset
  let charset := if config.includeUppercase then charset ++ characterSets.uppercase else charset
  let charset := if config.includeNumbers then charset ++ characterSets.numbers else charset
  let charset := if config.includeSymbols then charset ++ characterSets.symbols else charset
  if config.excludeAmbiguous then removeAmbiguous charset else charset

/-- The array `requiredSets` of `generatePassword`. -/
def requiredSets (config : Config) : List JSString :=
  let sets : List JSString := []
  let sets := if config.includeLowercase then sets ++ [characterSets.lowercase] else sets
  let sets := if config.includeUppercase then sets ++ [characterSets.uppercase] else sets
  let sets := if config.includeNumbers then sets ++ [characterSets.numbers] else sets
  if config.includeSymbols then sets ++ [characterSets.symbols] else sets

/-- Embeds `password += chars[i]`: an index out of range reads `undefined`, and `+=`
appends the text `undefined`. -/
def appendAt (password chars : JSString) (i : Nat) : JSString :=
  match chars.get? i with
  | some c => password ++ [c]
  | none => password ++ lit "undefined"

/-- The constant `availableChars` of one round of `requiredSets.forEach`. -/
def availableChars (config : Config) (set : JSString) : JSString :=
  if config.excludeAmbiguous then removeAmbiguous set else set

/-- One round of `requiredSets.forEach`. -/
def seedStep (config : Config) (acc : JSString × World) (set : JSString) : JSString × World :=
  (appendAt acc.1 (availableChars config set)
      (randomIndex acc.2.nextRandom.1 (availableChars config set).length),
    acc.2.nextRandom.2)

/-- The loop `while (password.length < config.length) password += charset[...]`.
`none` when `fuel` rounds did not reach the exit. -/
def fillLoop (charset : JSString) (length : Int) : Nat → JSString → World →
    Option (JSString × World)
  | 0, password, w => if (password.length : Int) < length then none else some (password, w)
  | fuel + 1, password, w =>
    if (password.length : Int) < length then
      fillLoop charset length fuel
        (appendAt password charset (randomIndex w.nextRandom.1 charset.length)) w.nextRandom.2
    else some (password, w)

/-- Embeds `shuffleString(str)`. -/
def shuffleString (engine : Engine) (str : JSString) (w : World) : JSString × World :=
  engine.sort coinFlip str w

/-- Embeds `generatePassword(options)`, with `config` the merged options. Every round
of the fill loop appends at least one unit, so `config.length - password.length`
rounds are enough fuel. -/
def generatePassword (engine : Engine) (config : Config) (tk : Toolkit) (w : World) :
    Completion (JSString × Toolkit × World) :=
  if config.length < 4 then .throw (lit "Password length must be at least 4 characters")
  else
    let charset := buildCharset config
    if charset.length = 0 then .throw (lit "No valid characters available with current options")
    else
      let seeded : JSString × World :=
        if config.ensureVariety then (requiredSets config).foldl (seedStep config) ([], w)
        else ([], w)
      match fillLoop charset config.length (config.length - seeded.1.length).toNat
          seeded.1 seeded.2 with
      | none => .outOfFuel
      | some filled =>
        let shuffled := shuffleString engine filled.1 filled.2
        let entry : HistoryEntry :=
          { password := shuffled.1, generated := shuffled.2.now.1, options := config }
        .ok (shuffled.1, { tk with passwordHistory := tk.passwordHistory ++ [entry] },
          shuffled.2.now.2)

/-! ## The mock breach table -/

/-- The time value of `new Date(now - Math.random() * span)` for the result
`m / 2^53`: the difference truncated to whole milliseconds, in exact
arithmetic. -/
def lastSeenOf (now : Int) (m : Nat) (span : Nat) : Int :=
  Int.tdiv (now * 9007199254740992 - (m : Int) * span) 9007199254740992

/-- One round of the first `forEach` of `generateMockBreachDatabase`. -/
def seedCommon (acc : BreachDatabase × World) (pwd : JSString) : BreachDatabase × World :=
  let r1 := acc.2.nextRandom
  let t := r1.2.now
  let r2 := t.2.nextRandom
  (acc.1.set (simpleHash pwd)
    { password := pwd, breachCount := randomIndex r1.1 1000000 + 1000,
      lastSeen := lastSeenOf t.1 r2.1 (365 * 24 * 60 * 60 * 1000) }, r2.2)

/-- The array `variations` of `generateMockBreachDatabase`. -/
def variations : List JSString :=
  [lit "1", lit "!", lit "123", lit "2023", lit "2024", lit "2025"]

/-- One round of the inner `forEach` over the suffixes, for the password `pwd`. -/
def seedVariant (pwd : JSString) (acc : BreachDatabase × World) (suffix : JSString) :
    BreachDatabase × World :=
  let variant := pwd ++ suffix
  let r1 := acc.2.nextRandom
  let t := r1.2.now
  let r2 := t.2.nextRandom
  (acc.1.set (simpleHash variant)
    { password := variant, breachCount := randomIndex r1.1 100000 + 100,
      lastSeen := lastSeenOf t.1 r2.1 (180 * 24 * 60 * 60 * 1000) }, r2.2)

/-- Embeds `generateMockBreachDatabase()`. -/
def generateMockBreachDatabase (w : World) : BreachDatabase × World :=
  let afterCommon := commonPasswords.foldl seedCommon ([], w)
  commonPasswords.foldl (fun acc pwd => variations.foldl (seedVariant pwd) acc) afterCommon

/-- The constructor: an empty history and a freshly seeded breach table. -/
def Toolkit.new (w : World) : Toolkit × World :=
  ({ passwordHistory := [], breachDatabase := (generateMockBreachDatabase w).1 },
    (generateMockBreachDatabase w).2)

/-! ## The passphrase generator and bulk generation -/

/-- The array `words` of `generatePassphrase`. -/
def words : List JSString :=
  [lit "apple", lit "banana", lit "cherry", lit "dragon", lit "elephant", lit "forest",
   lit "guitar", lit "harmony", lit "island", lit "jungle", lit "kitten", lit "ladder",
   lit "mountain", lit "notebook", lit "ocean", lit "penguin", lit "quartz", lit "rainbow",
   lit "sunset", lit "thunder", lit "umbrella", lit "village", lit "whisper", lit "xylophone",
   lit "yellow", lit "zebra", lit "adventure", lit "breeze", lit "cascade", lit "diamond",
   lit "enigma", lit "firefly", lit "galaxy", lit "horizon", lit "infinite", lit "journey",
   lit "kaleidoscope", lit "labyrinth", lit "miracle", lit "nebula", lit "odyssey",
   lit "paradise", lit "quantum", lit "radiance", lit "serenity", lit "tempest"]

/-- Decimal digits of a natural number, most significant first; `fuel` bounds
the number of digits. -/
def toDecimalAux : Nat → Nat → JSString → JSString
  | 0, _, acc => acc
  | fuel + 1, n, acc =>
    if n < 10 then (48 + n) :: acc
    else toDecimalAux fuel (n / 10) ((48 + n % 10) :: acc)

/-- The text of `n.toString()` for a natural number `n`. -/
def toDecimal (n : Nat) : JSString := toDecimalAux (n + 1) n []

/-- The text of `array.join(separator)` for an array of strings. -/
def join (separator : JSString) (array : List JSString) : JSString :=
  separator.intercalate array

/-- The loop of `generatePassphrase`: `count` rounds, each pushing
`words[Math.floor(Math.random() * words.length)]` (an index out of range would
push `undefined`, which `join` renders as the empty text). -/
def pickWords : Nat → List JSString → World → List JSString × World
  | 0, selectedWords, w => (selectedWords, w)
  | count + 1, selectedWords, w =>
    pickWords count
      (selectedWords ++ [words.getD (randomIndex w.nextRandom.1 words.length) []])
      w.nextRandom.2

/-- The call `generatePassphrase(wordCount, separator)`; the defaults of the
source are 4 and a dash. -/
def generatePassphrase (wordCount : Nat := 4) (separator : JSString := lit "-") (w : World) :
    JSString × World :=
  let picked := pickWords wordCount [] w
  let randomNum := randomIndex picked.2.nextRandom.1 1000
  (join separator (picked.1 ++ [toDecimal randomNum]), picked.2.nextRandom.2)

/-- The loop of `generateMultiplePasswords`: `count` rounds, each pushing the
generated password, or the marker built from the message of the error caught. -/
def generateMultipleLoop (engine : Engine) (config : Config) :
    Nat → List JSString → Toolkit → World → Completion (List JSString × Toolkit × World)
  | 0, passwords, tk, w => .ok (passwords, tk, w)
  | count + 1, passwords, tk, w =>
    match generatePassword engine config tk w with
    | .ok (password, tk2, w2) =>
      generateMultipleLoop engine config count (passwords ++ [password]) tk2 w2
    | .throw message =>
      generateMultipleLoop engine config count (passwords ++ [lit "Error: " ++ message]) tk w
    | .outOfFuel => .outOfFuel

/-- The call `generateMultiplePasswords(count, options)`, with `config` the
merged options; the default count of the source is 5. -/
def generateMultiplePasswords (engine : Engine) (count : Nat := 5) (config : Config := {})
    (tk : Toolkit) (w : World) : Completion (List JSString × Toolkit × World) :=
  generateMultipleLoop engine config count [] tk w

/-! ## Definitions used to state the properties -/

/-- The number `k` of structural patterns that match `password`. -/
def structuralCount (password : JSString) : Nat :=
  (commonPatterns.filter fun pattern => pattern password).length

/-- The number `m` of keyboard substrings contained in the lower-cased
`password`. -/
def keyboardCount (password : JSString) : Nat :=
  (keyboardPatterns.filter fun pattern => includes (toLowerCase password) pattern).length

/-- The names of the structural patterns that match `password`, in the order
checked. -/
def matchedNames (password : JSString) : List JSString :=
  ((commonPatterns.zip patternNames).filter fun e => e.1 password).map Prod.snd

/-- The pattern score as the specification words it: start at 20, subtract 5
per structural pattern matched, floor at 0 before the keyboard check, subtract
3 per keyboard substring found, clamp the final score to at least 0. -/
def patternScoreSpec (k m : Nat) : Int :=
  max 0 (max 0 (20 - 5 * (k : Int)) - 3 * (m : Int))

/-- The number `k` of character classes enabled in `config`. -/
def enabledCount (config : Config) : Nat :=
  ([config.includeLowercase, config.includeUppercase, config.includeNumbers,
    config.includeSymbols].filter id).length

/-- A valid generation config: length at least 4 and at least one class
enabled. -/
def Config.valid (config : Config) : Prop := 4 ≤ config.length ∧ 1 ≤ enabledCount config

instance (config : Config) : Decidable config.valid := by
  unfold Config.valid
  infer_instance

/-- The reference engine: insertion sort, which rearranges its input. -/
def insertionEngine : Engine where
  sort := insertionSort
  sort_perm := by
    intro cmp l w
    have hins : ∀ (x : Nat) (ys : List Nat) (v : World),
        (insertWith cmp x ys v).1.Perm (x :: ys) := by
      intro x ys
      induction ys with
      | nil => intro v; exact List.Perm.refl _
      | cons y ys ih =>
        intro v
        unfold insertWith
        split
        · exact List.Perm.refl _
        · exact ((ih _).cons y).trans (List.Perm.swap x y ys)
    induction l generalizing w with
    | nil => exact List.Perm.refl _
    | cons x xs ih =>
      unfold insertionSort
      exact (hins x _ _).trans ((ih w).cons x)

/-- A sample world: a linear congruential stream and a ticking clock. -/
def sampleWorld : World where
  random := fun i => (i * 2654435761 + 12345) * 1234567891
  clock := fun i => 1700000000000 + i

/-- The number of units of `l` that occur in the keyboard pattern `k`. -/
def unitsOf (k l : JSString) : Nat := l.countP fun x => k.contains x

/-- The number of units of `l` that occur in a keyboard pattern, summed over
the four patterns. -/
def keyboardUnits (l : JSString) : Nat := (keyboardPatterns.map fun k => unitsOf k l).sum

/-- The first two units of a string satisfy `Q`. -/
def firstTwo (Q : Nat → Nat → Bool) : JSString → Bool
  | x :: y :: _ => Q x y
  | _ => false

/-- The rolling hash as the specification words it: `hash = hash*31 + charCode`,
wrapped to a signed 32-bit integer. -/
def hashStepSpec (hash : Int) (charCode : Nat) : Int := toInt32 (hash * 31 + charCode)

/-- The suffix variants seeded by `generateMockBreachDatabase`. -/
def seededVariants : List JSString :=
  commonPasswords.flatMap fun pwd => variations.map fun suffix => pwd ++ suffix

/-- Every entry of the table sits under the hash of its own password, and
that password is one of `allowed`. -/
def BreachDatabase.wellKeyed (db : BreachDatabase) (allowed : List JSString) : Prop :=
  ∀ key record, db.get key = some record →
    simpleHash record.password = key ∧ record.password ∈ allowed

/-- The message of the error thrown by `generatePassword` on an invalid
config: the length guard is tested first. -/
def failureMessage (config : Config) : JSString :=
  if config.length < 4 then lit "Password length must be at least 4 characters"
  else lit "No valid characters available with current options"

/-! ## Lemmas on the analyzer -/

theorem foldl_structuralStep (p : JSString) (l : List (Nat × (JSString → Bool)))
    (acc : Int × List JSString) :
    l.foldl (structuralStep p) acc =
      (acc.1 - 5 * ((l.filter fun e => e.2 p).length : Int),
        acc.2 ++ (l.filter fun e => e.2 p).map fun e => patternNames.getD e.1 []) := by
  induction l generalizing acc with
  | nil => simp
  | cons e l ih =>
    rw [List.foldl_cons, ih]
    by_cases h : e.2 p = true
    · simp only [structuralStep, h, if_true, List.filter_cons, List.length_cons, List.map_cons,
        List.append_assoc, List.singleton_append, Nat.cast_add, Nat.cast_one]
      congr 1
      ring
    · simp [structuralStep, h, List.filter_cons]

theorem foldl_keyboardStep (p : JSString) (l : List JSString) (acc : Int × List JSString) :
    l.foldl (keyboardStep p) acc =
      (acc.1 - 3 * ((l.filter fun k => includes (toLowerCase p) k).length : Int),
        acc.2 ++ List.replicate (l.filter fun k => includes (toLowerCase p) k).length
          (lit "Keyboard pattern")) := by
  induction l generalizing acc with
  | nil => simp
  | cons e l ih =>
    rw [List.foldl_cons, ih]
    by_cases h : includes (toLowerCase p) e = true
    · simp only [keyboardStep, h, if_true, List.filter_cons, List.length_cons,
        List.replicate_succ, List.append_assoc, List.singleton_append, Nat.cast_add,
        Nat.cast_one]
      congr 1
      ring
    · simp [keyboardStep, h, List.filter_cons]

theorem filter_enumFrom_length (p : JSString) (l : List (JSString → Bool)) (n : Nat) :
    ((l.enumFrom n).filter fun e => e.2 p).length = (l.filter fun f => f p).length := by
  induction l generalizing n with
  | nil => simp
  | cons f l ih =>
    by_cases h : f p = true
    · simp [List.enumFrom_cons, List.filter_cons, h, ih]
    · simp [List.enumFrom_cons, List.filter_cons, h, ih]

theorem filter_enumFrom_names (p : JSString) (fs : List (JSString → Bool))
    (pre names : List JSString) (h : fs.length ≤ names.length) :
    (((fs.enumFrom pre.length).filter fun e => e.2 p).map fun e => (pre ++ names).getD e.1 []) =
      ((fs.zip names).filter fun e => e.1 p).map Prod.snd := by
  induction fs generalizing pre names with
  | nil => simp
  | cons f fs ih =>
    cases names with
    | nil => simp at h
    | cons nm names =>
      have hlen : fs.length ≤ names.length := by simpa using h
      have ih2 := ih (pre ++ [nm]) names hlen
      simp only [List.length_append, List.length_singleton, List.append_assoc,
        List.singleton_append] at ih2
      cases hf : f p with
      | true =>
        simp only [List.enumFrom_cons, List.zip_cons_cons, List.filter_cons, hf, if_true,
          List.map_cons, ih2]
        congr 1
        rw [List.getD_eq_getElem?_getD, List.getElem?_append_right (le_refl _)]
        simp
      | false =>
        simp only [List.enumFrom_cons, List.zip_cons_cons, List.filter_cons, hf,
          Bool.false_eq_true, if_false]
        exact ih2

theorem enum_names_eq (p : JSString) :
    ((commonPatterns.enum.filter fun e => e.2 p).map fun e => patternNames.getD e.1 []) =
      matchedNames p := by
  have h := filter_enumFrom_names p commonPatterns [] patternNames (by decide)
  simpa [matchedNames, List.enum] using h

/-- The closed form of `analyzePatterns`. -/
theorem analyzePatterns_eq (p : JSString) :
    analyzePatterns p =
      { score := max 0 (20 - 5 * (structuralCount p : Int) - 3 * (keyboardCount p : Int)),
        detectedPatterns :=
          matchedNames p ++ List.replicate (keyboardCount p) (lit "Keyboard pattern") } := by
  simp only [analyzePatterns, foldl_structuralStep, foldl_keyboardStep, structuralCount,
    keyboardCount, List.nil_append, enum_names_eq]
  rw [List.enum, filter_enumFrom_length]

theorem matchedNames_length_aux (p : JSString) (fs : List (JSString → Bool))
    (names : List JSString) (h : fs.length ≤ names.length) :
    (((fs.zip names).filter fun e => e.1 p).map Prod.snd).length =
      (fs.filter fun f => f p).length := by
  induction fs generalizing names with
  | nil => simp
  | cons f fs ih =>
    cases names with
    | nil => simp at h
    | cons nm names =>
      have hlen : fs.length ≤ names.length := by simpa using h
      have ih2 := ih names hlen
      simp only [List.length_map] at ih2
      cases hf : f p <;> simp [List.filter_cons, hf, ih2]

theorem matchedNames_length (p : JSString) : (matchedNames p).length = structuralCount p :=
  matchedNames_length_aux p commonPatterns patternNames (by decide)

theorem patternScoreSpec_eq (k m : Nat) :
    patternScoreSpec k m = max 0 (20 - 5 * (k : Int) - 3 * (m : Int)) := by
  unfold patternScoreSpec
  rcases le_total (20 - 5 * (k : Int)) 0 with h | h
  · rw [max_eq_left h, max_eq_left (by omega), max_eq_left (by omega)]
  · rw [max_eq_right h]

theorem analyzeLengthStrength_score_bounds (n : Nat) :
    0 ≤ (analyzeLengthStrength n).score ∧ (analyzeLengthStrength n).score ≤ 30 := by
  unfold analyzeLengthStrength
  split_ifs <;> simp

theorem varietyCount_le_four (p : JSString) : (analyzeCharacterVariety p).varietyCount ≤ 4 := by
  simp only [analyzeCharacterVariety]
  exact le_trans (List.length_filter_le _ _) (by simp)

theorem analyzeCharacterVariety_score (p : JSString) :
    (analyzeCharacterVariety p).score = 7 * ((analyzeCharacterVariety p).varietyCount : Int) := by
  simp only [analyzeCharacterVariety]
  ring

theorem analyzePatterns_score_bounds (p : JSString) :
    0 ≤ (analyzePatterns p).score ∧ (analyzePatterns p).score ≤ 20 := by
  rw [analyzePatterns_eq]
  constructor
  · exact le_max_left _ _
  · apply max_le <;> omega

theorem checkCommonPassword_score_bounds (p : JSString) :
    -10 ≤ (checkCommonPassword p).score ∧ (checkCommonPassword p).score ≤ 15 := by
  simp only [checkCommonPassword]
  split_ifs <;> simp

theorem analyzePassword_of_ne_nil (tk : Toolkit) (p : JSString) (hp : p ≠ []) :
    analyzePassword tk p = .analysis
      { password := p, length := p.length,
        strength := determineStrength
          (0 + (analyzeLengthStrength p.length).score + (analyzeCharacterVariety p).score +
            (analyzePatterns p).score + (checkCommonPassword p).score),
        score := 0 + (analyzeLengthStrength p.length).score + (analyzeCharacterVariety p).score +
            (analyzePatterns p).score + (checkCommonPassword p).score,
        maxScore := 100,
        breakdown :=
          { length := analyzeLengthStrength p.length, variety := analyzeCharacterVariety p,
            patterns := analyzePatterns p, commonality := checkCommonPassword p,
            breach := checkBreachDatabase tk.breachDatabase p },
        recommendations := generateRecommendations
          { length := analyzeLengthStrength p.length, variety := analyzeCharacterVariety p,
            patterns := analyzePatterns p, commonality := checkCommonPassword p,
            breach := checkBreachDatabase tk.breachDatabase p }
          (checkBreachDatabase tk.breachDatabase p).isCompromised,
        entropy := calculateEntropy p,
        isCompromised := (checkBreachDatabase tk.breachDatabase p).isCompromised,
        breachInfo := (checkBreachDatabase tk.breachDatabase p).breachInfo } := by
  have h : p.isEmpty = false := by
    cases p with
    | nil => exact absurd rfl hp
    | cons c cs => rfl
  simp only [analyzePassword, h, Bool.false_eq_true, if_false]

/-! ## Lemmas on the score range -/

theorem includes_sublist (l t : JSString) (h : includes l t = true) : t.Sublist l := by
  obtain ⟨u, hu, hp⟩ := List.any_eq_true.mp h
  exact ((List.isPrefixOf_iff_prefix.mp hp).sublist).trans ((List.mem_tails _ _).mp hu).sublist

theorem unitsOf_self (k : JSString) : unitsOf k k = k.length := by
  unfold unitsOf
  rw [List.countP_eq_length]
  intro x hx
  simpa using hx

theorem four_mul_filter_includes (l : JSString) (ks : List JSString)
    (h : ∀ k ∈ ks, 4 ≤ k.length) :
    4 * (ks.filter fun k => includes l k).length ≤ (ks.map fun k => unitsOf k l).sum := by
  induction ks with
  | nil => simp
  | cons k ks ih =>
    have ih2 := ih (fun t ht => h t (List.mem_cons_of_mem _ ht))
    cases hk : includes l k with
    | false =>
      simp only [List.filter_cons, hk, Bool.false_eq_true, if_false, List.map_cons, List.sum_cons]
      omega
    | true =>
      have h1 : unitsOf k k ≤ unitsOf k l := List.Sublist.countP_le _ (includes_sublist l k hk)
      rw [unitsOf_self] at h1
      have h2 := h k (List.mem_cons_self _ _)
      simp only [List.filter_cons, hk, if_true, List.length_cons, List.map_cons, List.sum_cons]
      omega

theorem keyboardUnits_append (u v : JSString) :
    keyboardUnits (u ++ v) = keyboardUnits u + keyboardUnits v := by
  simp only [keyboardUnits, keyboardPatterns, unitsOf, List.countP_append, List.map_cons,
    List.map_nil, List.sum_cons, List.sum_nil]
  omega

theorem keyboardUnits_singleton (x : Nat) : keyboardUnits [x] ≤ 1 := by
  by_cases hx : x < 128
  · interval_cases x <;> decide
  · have h : ∀ k ∈ keyboardPatterns, ∀ y ∈ k, y < 128 := by decide
    have hz : ∀ k ∈ keyboardPatterns, unitsOf k [x] = 0 := by
      intro k hk
      unfold unitsOf
      rw [List.countP_eq_zero]
      intro y hy
      have : y = x := by simpa using hy
      subst this
      intro hc
      have hm : y ∈ k := by simpa using hc
      exact hx (h k hk y hm)
    have : keyboardUnits [x] = 0 := by
      unfold keyboardUnits
      apply List.sum_eq_zero
      intro n hn
      obtain ⟨k, hk, rfl⟩ := List.mem_map.mp hn
      exact hz k hk
    omega

theorem keyboardUnits_lowerUnit (c : Nat) : keyboardUnits (lowerUnit c) ≤ 1 := by
  unfold lowerUnit
  split_ifs
  · exact keyboardUnits_singleton _
  · decide
  · decide
  · exact keyboardUnits_singleton _

theorem keyboardUnits_toLowerCase (p : JSString) : keyboardUnits (toLowerCase p) ≤ p.length := by
  induction p with
  | nil => decide
  | cons c p ih =>
    have h := keyboardUnits_lowerUnit c
    simp only [toLowerCase, List.flatMap_cons, keyboardUnits_append, List.length_cons] at ih ⊢
    omega

theorem four_mul_keyboardCount (p : JSString) : 4 * keyboardCount p ≤ p.length :=
  le_trans (four_mul_filter_includes (toLowerCase p) keyboardPatterns (by decide))
    (keyboardUnits_toLowerCase p)

theorem keyboard_unit_source (c x : Nat) (hx : x ∈ lowerUnit c)
    (hk : ∃ k ∈ keyboardPatterns, x ∈ k) :
    (isLower c || isUpper c || isDigit c) = true := by
  have hfacts : ∀ k ∈ keyboardPatterns, ∀ y ∈ k,
      y ≠ 0x69 ∧ y ≠ 0x307 ∧ y ≠ 0x6B ∧ (isLower y || isDigit y) = true := by decide
  obtain ⟨k, hkm, hxk⟩ := hk
  obtain ⟨h1, h2, h3, h4⟩ := hfacts k hkm x hxk
  unfold lowerUnit at hx
  split_ifs at hx with hu hi hkel
  · simp [isUpper, hu.1, hu.2]
  · simp at hx
    omega
  · simp at hx
    omega
  · have : x = c := by simpa using hx
    subst this
    rcases Bool.or_eq_true _ _ |>.mp h4 with h | h <;> simp [h]

theorem variety_of_keyboardCount (p : JSString) (h : 1 ≤ keyboardCount p) :
    1 ≤ (analyzeCharacterVariety p).varietyCount := by
  have hpos : 0 < (keyboardPatterns.filter fun k => includes (toLowerCase p) k).length := h
  obtain ⟨k, hk⟩ := List.exists_mem_of_length_pos hpos
  obtain ⟨hkm, hinc⟩ := List.mem_filter.mp hk
  have hsub := includes_sublist _ _ hinc
  have hne : ∀ k ∈ keyboardPatterns, k ≠ [] := by decide
  obtain ⟨x, hx⟩ := List.exists_mem_of_ne_nil k (hne k hkm)
  have hxl : x ∈ toLowerCase p := hsub.subset hx
  obtain ⟨c, hc, hxc⟩ := List.mem_flatMap.mp hxl
  have hcls := keyboard_unit_source c x hxc ⟨k, hkm, hx⟩
  have hany : (p.any isLower || p.any isUpper || p.any isDigit) = true := by
    simp only [Bool.or_eq_true, List.any_eq_true] at hcls ⊢
    rcases hcls with (h | h) | h
    · exact Or.inl (Or.inl ⟨c, hc, h⟩)
    · exact Or.inl (Or.inr ⟨c, hc, h⟩)
    · exact Or.inr ⟨c, hc, h⟩
  simp only [analyzeCharacterVariety]
  revert hany
  cases p.any isLower <;> cases p.any isUpper <;> cases p.any isDigit <;>
    cases p.any isSymbol <;> simp

theorem digits_length (n : Nat) (s r : JSString) (h : digits n s = some r) :
    s.length = r.length + n := by
  induction n generalizing s with
  | zero =>
    simp only [digits, Option.some.injEq] at h
    subst h
    rfl
  | succ n ih =>
    cases s with
    | nil => simp [digits] at h
    | cons c s =>
      simp only [digits] at h
      split_ifs at h
      have := ih s h
      simp only [List.length_cons]
      omega

theorem unit_length (c : Nat) (s r : JSString) (h : unit c s = some r) :
    s.length = r.length + 1 := by
  cases s with
  | nil => simp [unit] at h
  | cons d s =>
    simp only [unit] at h
    split_ifs at h
    simp only [Option.some.injEq] at h
    subst h
    rfl

theorem optional_length (c : Nat) (s : JSString) : (optional c s).length ≤ s.length := by
  cases s with
  | nil => simp [optional]
  | cons d s =>
    simp only [optional]
    split_ifs <;> simp

theorem datePattern_length (p : JSString) (h : datePattern p = true) : 9 ≤ p.length := by
  simp only [datePattern, beq_iff_eq, Option.bind_eq_some] at h
  obtain ⟨r4, ⟨r3, ⟨r2, ⟨r1, h1, h2⟩, h3⟩, h4⟩, h5⟩ := h
  have := digits_length _ _ _ h1
  have := unit_length _ _ _ h2
  have := digits_length _ _ _ h3
  have := unit_length _ _ _ h4
  have := digits_length _ _ _ h5
  omega

theorem ssnPattern_length (p : JSString) (h : ssnPattern p = true) : 9 ≤ p.length := by
  simp only [ssnPattern, beq_iff_eq, Option.bind_eq_some, Option.map_eq_some'] at h
  obtain ⟨r4, ⟨r3, ⟨r2, ⟨r1, h1, h2⟩, h3⟩, h4⟩, h5⟩ := h
  have := digits_length _ _ _ h1
  have := optional_length 45 r1
  have := digits_length _ _ _ h3
  have := optional_length 45 r3
  have := digits_length _ _ _ h5
  subst h2 h4
  omega

theorem firstTwo_of_isPrefixOf (Q : Nat → Nat → Bool) (t s : JSString)
    (hp : t.isPrefixOf s = true) (ht : firstTwo Q t = true) : firstTwo Q s = true := by
  obtain ⟨r, rfl⟩ := List.isPrefixOf_iff_prefix.mp hp
  match t, ht with
  | x :: y :: tl, ht => exact ht

theorem firstTwo_of_any (Q : Nat → Nat → Bool) (ts : List JSString) (s : JSString)
    (hts : ts.all (firstTwo Q) = true) (h : ts.any (fun t => t.isPrefixOf s) = true) :
    firstTwo Q s = true := by
  obtain ⟨t, ht, hp⟩ := List.any_eq_true.mp h
  exact firstTwo_of_isPrefixOf Q t s hp (List.all_eq_true.mp hts t ht)

theorem firstTwo_map (Q : Nat → Nat → Bool) (f : Nat → Nat) (s : JSString)
    (h : firstTwo Q (s.map f) = true) : firstTwo (fun a b => Q (f a) (f b)) s = true := by
  match s, h with
  | x :: y :: tl, h => exact h

theorem firstTwo_both (Q R : Nat → Nat → Bool) (s : JSString)
    (hq : firstTwo Q s = true) (hr : firstTwo R s = true) :
    ∃ a b, Q a b = true ∧ R a b = true := by
  match s, hq, hr with
  | x :: y :: tl, hq, hr => exact ⟨x, y, hq, hr⟩

theorem allSameCharacter_firstTwo (p : JSString) (h : allSameCharacter p = true) :
    firstTwo (fun a b => a == b) p = true := by
  match p, h with
  | [c], h => simp [allSameCharacter, copiesToEnd] at h
  | c :: b :: rest, h =>
    simp only [allSameCharacter, copiesToEnd, List.length_cons, Bool.and_eq_true] at h
    have h2 := h.2.1
    simp only [firstTwo]
    simpa [List.isPrefixOf] using h2

theorem sequentialNumbers_firstTwo (p : JSString) (h : sequentialNumbers p = true) :
    firstTwo (fun a b => decide (a ≤ 57) && (a != b) && !(a == 49 && b == 57) &&
      !(a == 50 && b == 48)) p = true :=
  firstTwo_of_any _ _ p (by decide) h

theorem sequentialLetters_firstTwo (p : JSString) (h : sequentialLetters p = true) :
    firstTwo (fun a b => decide (65 ≤ canonicalize a) && (canonicalize a != canonicalize b))
      p = true := by
  apply firstTwo_map (fun a b => decide (65 ≤ a) && (a != b)) canonicalize
  obtain ⟨t, ht, hp⟩ := List.any_eq_true.mp h
  have hall : ∀ t ∈ [lit "abc", lit "bcd", lit "cde", lit "def", lit "efg", lit "fgh", lit "ghi",
      lit "hij", lit "ijk", lit "jkl", lit "klm", lit "lmn", lit "mno", lit "nop", lit "opq",
      lit "pqr", lit "qrs", lit "rst", lit "stu", lit "tuv", lit "uvw", lit "vwx", lit "wxy",
      lit "xyz"], firstTwo (fun a b => decide (65 ≤ a) && (a != b)) (t.map canonicalize) = true := by
    decide
  exact firstTwo_of_isPrefixOf _ _ _ hp (hall t ht)

theorem yearPattern_firstTwo (p : JSString) (h : yearPattern p = true) :
    firstTwo (fun a b => (a == 49 && b == 57) || (a == 50 && b == 48)) p = true := by
  simp only [yearPattern, Bool.and_eq_true, Bool.or_eq_true] at h
  rcases h.1 with h1 | h1
  · exact firstTwo_of_isPrefixOf _ _ _ h1 (by decide)
  · exact firstTwo_of_isPrefixOf _ _ _ h1 (by decide)

theorem canonicalize_cases (a : Nat) : (canonicalize a = a ∧ ¬ (97 ≤ a ∧ a ≤ 122)) ∨
    (canonicalize a + 32 = a ∧ 97 ≤ a ∧ a ≤ 122) := by
  unfold canonicalize isLower
  by_cases h : 97 ≤ a ∧ a ≤ 122
  · right
    simp [h.1, h.2]
    omega
  · left
    refine ⟨?_, h⟩
    have : (decide (97 ≤ a) && decide (a ≤ 122)) = false := by
      simpa using h
    simp [this]

/-- At most one of the four patterns that fix the first two units matches. -/
theorem first_two_exclusive (p : JSString) :
    (if allSameCharacter p then 1 else 0) + (if sequentialNumbers p then 1 else 0) +
      (if sequentialLetters p then 1 else 0) + (if yearPattern p then 1 else 0) ≤ 1 := by
  have e12 : allSameCharacter p = true → sequentialNumbers p = true → False := by
    intro h1 h2
    obtain ⟨a, b, ha, hb⟩ := firstTwo_both _ _ p (allSameCharacter_firstTwo p h1)
      (sequentialNumbers_firstTwo p h2)
    simp at ha hb
    omega
  have e13 : allSameCharacter p = true → sequentialLetters p = true → False := by
    intro h1 h2
    obtain ⟨a, b, ha, hb⟩ := firstTwo_both _ _ p (allSameCharacter_firstTwo p h1)
      (sequentialLetters_firstTwo p h2)
    simp at ha hb
    subst ha
    exact hb.2 rfl
  have e15 : allSameCharacter p = true → yearPattern p = true → False := by
    intro h1 h2
    obtain ⟨a, b, ha, hb⟩ := firstTwo_both _ _ p (allSameCharacter_firstTwo p h1)
      (yearPattern_firstTwo p h2)
    simp at ha hb
    omega
  have e23 : sequentialNumbers p = true → sequentialLetters p = true → False := by
    intro h1 h2
    obtain ⟨a, b, ha, hb⟩ := firstTwo_both _ _ p (sequentialNumbers_firstTwo p h1)
      (sequentialLetters_firstTwo p h2)
    simp at ha hb
    have := canonicalize_cases a
    omega
  have e25 : sequentialNumbers p = true → yearPattern p = true → False := by
    intro h1 h2
    obtain ⟨a, b, ha, hb⟩ := firstTwo_both _ _ p (sequentialNumbers_firstTwo p h1)
      (yearPattern_firstTwo p h2)
    simp at ha hb
    omega
  have e35 : sequentialLetters p = true → yearPattern p = true → False := by
    intro h1 h2
    obtain ⟨a, b, ha, hb⟩ := firstTwo_both _ _ p (sequentialLetters_firstTwo p h1)
      (yearPattern_firstTwo p h2)
    simp at ha hb
    have := canonicalize_cases a
    omega
  cases h1 : allSameCharacter p <;> cases h2 : sequentialNumbers p <;>
    cases h3 : sequentialLetters p <;> cases h5 : yearPattern p <;>
    simp_all

theorem structuralCount_le_two (p : JSString) (h : p.length ≤ 8) : structuralCount p ≤ 2 := by
  have h6 : datePattern p = false := by
    by_contra hc
    have := datePattern_length p (by simpa using hc)
    omega
  have h7 : ssnPattern p = false := by
    by_contra hc
    have := ssnPattern_length p (by simpa using hc)
    omega
  have hx := first_two_exclusive p
  simp only [structuralCount, commonPatterns, ← List.countP_eq_length_filter, List.countP_cons,
    List.countP_nil, h6, h7]
  simp only [Bool.false_eq_true, if_false, add_zero, zero_add]
  split_ifs at hx ⊢ <;> omega

theorem length_variety_patterns_ge_ten (p : JSString) :
    10 ≤ (analyzeLengthStrength p.length).score + (analyzeCharacterVariety p).score +
      (analyzePatterns p).score := by
  have hv := analyzeCharacterVariety_score p
  have hp := analyzePatterns_score_bounds p
  by_cases hlen : p.length < 8
  · have hk := structuralCount_le_two p (by omega)
    have hm := four_mul_keyboardCount p
    have hl := (analyzeLengthStrength_score_bounds p.length).1
    have hvc : 1 ≤ keyboardCount p → 1 ≤ (analyzeCharacterVariety p).varietyCount :=
      variety_of_keyboardCount p
    have hscore : (analyzePatterns p).score =
        max 0 (20 - 5 * (structuralCount p : Int) - 3 * (keyboardCount p : Int)) := by
      rw [analyzePatterns_eq]
    have hge : 20 - 5 * (structuralCount p : Int) - 3 * (keyboardCount p : Int) ≤
        (analyzePatterns p).score := by
      rw [hscore]
      exact le_max_right _ _
    by_cases hm0 : keyboardCount p = 0
    · rw [hm0] at hge
      omega
    · have := hvc (by omega)
      omega
  · have hl : 15 ≤ (analyzeLengthStrength p.length).score := by
      unfold analyzeLengthStrength
      split_ifs <;> simp
    omega

theorem score_range (tk : Toolkit) (p : JSString) (a : Analysis)
    (h : analyzePassword tk p = .analysis a) : 0 ≤ a.score ∧ a.score ≤ 93 := by
  have hp : p ≠ [] := by
    rintro rfl
    simp [analyzePassword] at h
  rw [analyzePassword_of_ne_nil tk p hp] at h
  injection h with h
  subst h
  have h0 := length_variety_patterns_ge_ten p
  have h1 := analyzeLengthStrength_score_bounds p.length
  have h2 := varietyCount_le_four p
  have h3 := analyzeCharacterVariety_score p
  have h4 := analyzePatterns_score_bounds p
  have h5 := checkCommonPassword_score_bounds p
  simp only
  omega

/-! ## Lemmas on the generator -/

theorem randomIndex_lt (w : World) (n : Nat) (hn : 0 < n) :
    randomIndex w.nextRandom.1 n < n := by
  unfold randomIndex World.nextRandom
  apply Nat.div_lt_of_lt_mul
  have h : w.random 0 % 9007199254740992 < 9007199254740992 := Nat.mod_lt _ (by norm_num)
  exact Nat.mul_lt_mul_of_pos_right h hn

theorem appendAt_of_lt (pw chars : JSString) (i : Nat) (h : i < chars.length) :
    ∃ c, c ∈ chars ∧ appendAt pw chars i = pw ++ [c] := by
  refine ⟨chars[i], List.getElem_mem h, ?_⟩
  simp [appendAt, List.getElem?_eq_getElem h]

theorem appendAt_random (pw chars : JSString) (w : World) (h : chars ≠ []) :
    ∃ c, c ∈ chars ∧ appendAt pw chars (randomIndex w.nextRandom.1 chars.length) = pw ++ [c] :=
  appendAt_of_lt pw chars _ (randomIndex_lt w chars.length (List.length_pos.mpr h))

theorem foldl_seedStep (config : Config) (sets : List JSString) (acc : JSString × World)
    (h : ∀ s ∈ sets, availableChars config s ≠ []) :
    ∃ picks, (sets.foldl (seedStep config) acc).1 = acc.1 ++ picks ∧
      List.Forall₂ (fun c s => c ∈ availableChars config s) picks sets := by
  induction sets generalizing acc with
  | nil => exact ⟨[], by simp, List.Forall₂.nil⟩
  | cons s sets ih =>
    obtain ⟨c, hc, hstep⟩ := appendAt_random acc.1 (availableChars config s) acc.2
      (h s (List.mem_cons_self _ _))
    obtain ⟨picks, hp, hf⟩ := ih (seedStep config acc s)
      (fun t ht => h t (List.mem_cons_of_mem _ ht))
    refine ⟨c :: picks, ?_, List.Forall₂.cons hc hf⟩
    rw [List.foldl_cons, hp]
    simp only [seedStep, hstep, List.append_assoc, List.singleton_append]

theorem fillLoop_spec (charset : JSString) (hc : charset ≠ []) (length : Int) :
    ∀ (fuel : Nat) (pw : JSString) (w : World), (length - pw.length).toNat ≤ fuel →
      ∃ extra w2, fillLoop charset length fuel pw w = some (pw ++ extra, w2) ∧
        (∀ c ∈ extra, c ∈ charset) ∧ (extra.length : Int) = max 0 (length - pw.length) := by
  intro fuel
  induction fuel with
  | zero =>
    intro pw w hfuel
    have hle : ¬ ((pw.length : Int) < length) := by omega
    exact ⟨[], w, by simp [fillLoop, hle], by simp, by simp; omega⟩
  | succ fuel ih =>
    intro pw w hfuel
    by_cases hlt : (pw.length : Int) < length
    · obtain ⟨c, hcm, hstep⟩ := appendAt_random pw charset w hc
      obtain ⟨extra, w2, hrun, hmem, hlen⟩ := ih (pw ++ [c]) w.nextRandom.2 (by
        have h1 : ((pw ++ [c]).length : Int) = pw.length + 1 := by simp
        rw [h1]
        omega)
      refine ⟨c :: extra, w2, ?_, ?_, ?_⟩
      · simp only [fillLoop, hlt, if_true, hstep, hrun]
        simp
      · intro d hd
        rcases List.mem_cons.mp hd with rfl | hd
        · exact hcm
        · exact hmem d hd
      · have h1 : ((pw ++ [c]).length : Int) = pw.length + 1 := by simp
        have h2 : ((c :: extra).length : Int) = extra.length + 1 := by simp
        rw [h1] at hlen
        rw [h2]
        omega
    · exact ⟨[], w, by simp [fillLoop, hlt], by simp, by simp; omega⟩

theorem buildCharset_eq_nil_iff (config : Config) :
    buildCharset config = [] ↔
      (config.includeLowercase = false ∧ config.includeUppercase = false ∧
        config.includeNumbers = false ∧ config.includeSymbols = false) := by
  obtain ⟨len, u, l, n, s, ea, es, ev⟩ := config
  cases u <;> cases l <;> cases n <;> cases s <;> cases ea <;>
    simp only [buildCharset, if_true, Bool.false_eq_true, if_false] <;> decide

theorem requiredSets_available (config : Config) :
    ∀ s ∈ requiredSets config, availableChars config s ≠ [] ∧
      ∀ c ∈ availableChars config s, c ∈ buildCharset config := by
  obtain ⟨len, u, l, n, s, ea, es, ev⟩ := config
  cases u <;> cases l <;> cases n <;> cases s <;> cases ea <;>
    simp only [buildCharset, requiredSets, availableChars, if_true, Bool.false_eq_true,
      if_false] <;> decide

theorem buildCharset_ne_nil_of_valid (config : Config) (h : config.valid) :
    buildCharset config ≠ [] := by
  intro hnil
  obtain ⟨hl, hu, hn, hs⟩ := (buildCharset_eq_nil_iff config).mp hnil
  have := h.2
  simp [enabledCount, hl, hu, hn, hs] at this

theorem requiredSets_length (config : Config) :
    (requiredSets config).length = enabledCount config := by
  obtain ⟨len, u, l, n, s, ea, es, ev⟩ := config
  cases u <;> cases l <;> cases n <;> cases s <;> rfl

theorem mem_requiredSets (config : Config) :
    (config.includeLowercase = true → characterSets.lowercase ∈ requiredSets config) ∧
    (config.includeUppercase = true → characterSets.uppercase ∈ requiredSets config) ∧
    (config.includeNumbers = true → characterSets.numbers ∈ requiredSets config) ∧
    (config.includeSymbols = true → characterSets.symbols ∈ requiredSets config) := by
  obtain ⟨len, u, l, n, s, ea, es, ev⟩ := config
  cases u <;> cases l <;> cases n <;> cases s <;> simp [requiredSets]

theorem buildCharset_not_ambiguous (config : Config) (h : config.excludeAmbiguous = true) :
    ∀ c ∈ buildCharset config, c ∉ characterSets.ambiguous := by
  obtain ⟨len, u, l, n, s, ea, es, ev⟩ := config
  simp only at h
  subst h
  cases u <;> cases l <;> cases n <;> cases s <;>
    simp only [buildCharset, if_true, Bool.false_eq_true, if_false] <;> decide

theorem availableChars_subset (config : Config) (set : JSString) :
    ∀ c ∈ availableChars config set, c ∈ set := by
  intro c hc
  unfold availableChars at hc
  split at hc
  · exact (List.mem_filter.mp hc).1
  · exact hc

theorem forall₂_exists_left {α β : Type} {R : α → β → Prop} {xs : List α} {ys : List β}
    (h : List.Forall₂ R xs ys) : ∀ y ∈ ys, ∃ x ∈ xs, R x y := by
  induction h with
  | nil => intro y hy; cases hy
  | cons hr _ ih =>
    intro y hy
    rcases List.mem_cons.mp hy with rfl | hy
    · exact ⟨_, List.mem_cons_self _ _, hr⟩
    · obtain ⟨x, hx, hxy⟩ := ih y hy
      exact ⟨x, List.mem_cons_of_mem _ hx, hxy⟩

theorem forall₂_exists_right {α β : Type} {R : α → β → Prop} {xs : List α} {ys : List β}
    (h : List.Forall₂ R xs ys) : ∀ x ∈ xs, ∃ y ∈ ys, R x y := by
  induction h with
  | nil => intro x hx; cases hx
  | cons hr _ ih =>
    intro x hx
    rcases List.mem_cons.mp hx with rfl | hx
    · exact ⟨_, List.mem_cons_self _ _, hr⟩
    · obtain ⟨y, hy, hxy⟩ := ih x hx
      exact ⟨y, List.mem_cons_of_mem _ hy, hxy⟩

/-- What a call of `generatePassword` with a valid config does: it returns a
rearrangement of the seeded picks followed by the fill, and appends one entry
to the history. -/
theorem generatePassword_ok (engine : Engine) (config : Config) (tk : Toolkit) (w : World)
    (h : config.valid) :
    ∃ (picks extra pw : JSString) (w2 : World) (t : Int),
      generatePassword engine config tk w =
        .ok (pw, { tk with passwordHistory := tk.passwordHistory ++
          [{ password := pw, generated := t, options := config }] }, w2) ∧
      pw.Perm (picks ++ extra) ∧
      List.Forall₂ (fun c s => c ∈ availableChars config s) picks
        (if config.ensureVariety then requiredSets config else []) ∧
      (∀ c ∈ extra, c ∈ buildCharset config) ∧
      (extra.length : Int) = max 0 (config.length - picks.length) := by
  have h1 : ¬ config.length < 4 := not_lt.mpr h.1
  have hcs := buildCharset_ne_nil_of_valid config h
  have h2 : ¬ (buildCharset config).length = 0 := fun h0 => hcs (List.length_eq_zero.mp h0)
  obtain ⟨picks, w1, hseed, hforall⟩ : ∃ picks w1,
      (if config.ensureVariety then (requiredSets config).foldl (seedStep config) ([], w)
        else ([], w)) = (picks, w1) ∧
      List.Forall₂ (fun c s => c ∈ availableChars config s) picks
        (if config.ensureVariety then requiredSets config else []) := by
    cases hv : config.ensureVariety
    · exact ⟨[], w, by simp, by simp⟩
    · obtain ⟨picks, hp, hf⟩ := foldl_seedStep config (requiredSets config) ([], w)
        (fun s hs => (requiredSets_available config s hs).1)
      refine ⟨picks, ((requiredSets config).foldl (seedStep config) ([], w)).2, ?_, by simpa using hf⟩
      simp only [if_true]
      exact Prod.ext (by simpa using hp) rfl
  obtain ⟨extra, w2, hrun, hmem, hl⟩ := fillLoop_spec (buildCharset config) hcs config.length
    (config.length - picks.length).toNat picks w1 le_rfl
  refine ⟨picks, extra, (shuffleString engine (picks ++ extra) w2).1,
    (shuffleString engine (picks ++ extra) w2).2.now.2,
    (shuffleString engine (picks ++ extra) w2).2.now.1, ?_, ?_, hforall, hmem, hl⟩
  · simp only [generatePassword, h1, h2, if_false, hseed, hrun]
  · exact engine.sort_perm _ _ _

/-! ## Lemmas on the breach table -/

theorem lookup_filter_ne (db : BreachDatabase) (k key : JSString) (h : key ≠ k) :
    List.lookup key (db.filter fun e => e.1 != k) = List.lookup key db := by
  induction db with
  | nil => rfl
  | cons e db ih =>
    obtain ⟨ek, ev⟩ := e
    by_cases hek : ek = k
    · subst hek
      have hne : (key == ek) = false := by simpa using h
      simp [List.filter_cons, List.lookup_cons, hne, ih]
    · have hne : (ek != k) = true := by simpa using hek
      simp only [List.filter_cons, hne, if_true, List.lookup_cons, ih]

theorem get_set_self (db : BreachDatabase) (k : JSString) (r : BreachRecord) :
    (db.set k r).get k = some r := by
  simp [BreachDatabase.set, BreachDatabase.get, List.lookup_cons]

theorem get_set_isSome (db : BreachDatabase) (k key : JSString) (r : BreachRecord)
    (h : (db.get key).isSome = true) : ((db.set k r).get key).isSome = true := by
  by_cases hk : key = k
  · subst hk
    rw [get_set_self]
    rfl
  · have hne : (key == k) = false := by simpa using hk
    simp only [BreachDatabase.set, BreachDatabase.get, List.lookup_cons, hne,
      lookup_filter_ne db k key hk]
    exact h

theorem foldl_seedVariant_isSome (pwd : JSString) (l : List JSString)
    (acc : BreachDatabase × World) (key : JSString) (h : (acc.1.get key).isSome = true) :
    ((l.foldl (seedVariant pwd) acc).1.get key).isSome = true := by
  induction l generalizing acc with
  | nil => exact h
  | cons x l ih => exact ih _ (get_set_isSome _ _ _ _ h)

theorem foldl_variants_isSome (l : List JSString) (acc : BreachDatabase × World)
    (key : JSString) (h : (acc.1.get key).isSome = true) :
    ((l.foldl (fun acc pwd => variations.foldl (seedVariant pwd) acc) acc).1.get key).isSome
      = true := by
  induction l generalizing acc with
  | nil => exact h
  | cons x l ih => exact ih _ (foldl_seedVariant_isSome x variations acc key h)

theorem foldl_seedCommon_isSome (l : List JSString) (acc : BreachDatabase × World)
    (key : JSString) (h : (acc.1.get key).isSome = true) :
    ((l.foldl seedCommon acc).1.get key).isSome = true := by
  induction l generalizing acc with
  | nil => exact h
  | cons x l ih => exact ih _ (get_set_isSome _ _ _ _ h)

theorem foldl_seedCommon_mem (l : List JSString) (acc : BreachDatabase × World)
    (p : JSString) (hp : p ∈ l) :
    ((l.foldl seedCommon acc).1.get (simpleHash p)).isSome = true := by
  induction l generalizing acc with
  | nil => cases hp
  | cons x l ih =>
    rcases List.mem_cons.mp hp with rfl | hp
    · rw [List.foldl_cons]
      apply foldl_seedCommon_isSome
      show ((BreachDatabase.set _ _ _).get _).isSome = true
      rw [get_set_self]
      rfl
    · exact ih _ hp

/-- Every listed common password has its hash in the seeded breach table. -/
theorem generateMockBreachDatabase_common (w : World) (p : JSString)
    (hp : p ∈ commonPasswords) :
    (((generateMockBreachDatabase w).1).get (simpleHash p)).isSome = true :=
  foldl_variants_isSome _ _ _ (foldl_seedCommon_mem commonPasswords ([], w) p hp)

theorem commonPasswords_scores :
    ∀ p ∈ commonPasswords, p ≠ [] ∧ (checkCommonPassword p).score = -10 ∧
      (determineStrength (0 + (analyzeLengthStrength p.length).score +
          (analyzeCharacterVariety p).score + (analyzePatterns p).score +
          (checkCommonPassword p).score) = .veryWeak ∨
        determineStrength (0 + (analyzeLengthStrength p.length).score +
          (analyzeCharacterVariety p).score + (analyzePatterns p).score +
          (checkCommonPassword p).score) = .weak) := by
  decide

/-! ## Lemmas on the hash and the commonality check -/

theorem toInt32_emod (x : Int) : toInt32 x % 4294967296 = x % 4294967296 := by
  unfold toInt32
  omega

theorem toInt32_congr (x y : Int) (h : x % 4294967296 = y % 4294967296) :
    toInt32 x = toInt32 y := by
  unfold toInt32
  omega

theorem hashStep_eq_spec (hash : Int) (char : Nat) :
    hashStep hash char = hashStepSpec hash char := by
  unfold hashStep hashStepSpec
  apply toInt32_congr
  have h := toInt32_emod (hash * 32)
  omega

theorem toInt32_range (x : Int) : -2147483648 ≤ toInt32 x ∧ toInt32 x < 2147483648 := by
  unfold toInt32
  omega

theorem hexDigit_eq_digitChar (d : Nat) (h : d < 16) : hexDigit d = (Nat.digitChar d).toNat := by
  interval_cases d <;> rfl

theorem toHexAux_eq_toDigitsCore (fuel n : Nat) (acc : List Char) :
    toHexAux fuel n (acc.map Char.toNat) = (Nat.toDigitsCore 16 fuel n acc).map Char.toNat := by
  induction fuel generalizing n acc with
  | zero => simp [toHexAux, Nat.toDigitsCore]
  | succ fuel ih =>
    simp only [toHexAux, Nat.toDigitsCore]
    by_cases hn : n < 16
    · have h0 : n / 16 = 0 := Nat.div_eq_of_lt hn
      have hm : n % 16 = n := Nat.mod_eq_of_lt hn
      simp [hn, h0, hm, hexDigit_eq_digitChar n hn]
    · have h0 : ¬ n / 16 = 0 := by omega
      have := ih (n / 16) (Nat.digitChar (n % 16) :: acc)
      simp only [hn, h0, if_false]
      rw [← this]
      simp [hexDigit_eq_digitChar (n % 16) (Nat.mod_lt _ (by norm_num))]

theorem toHex_eq_toDigits (n : Nat) : toHex n = (Nat.toDigits 16 n).map Char.toNat := by
  have := toHexAux_eq_toDigitsCore (n + 1) n []
  simpa [toHex, Nat.toDigits] using this

theorem foldl_hashStep_eq (s : JSString) (h : Int) :
    s.foldl hashStep h = s.foldl hashStepSpec h := by
  induction s generalizing h with
  | nil => rfl
  | cons c s ih => simp only [List.foldl_cons, hashStep_eq_spec, ih]

theorem includes_iff_infix (s t : JSString) : includes s t = true ↔ t <:+: s := by
  constructor
  · intro h
    obtain ⟨u, hu, hp⟩ := List.any_eq_true.mp h
    exact List.infix_iff_prefix_suffix.mpr
      ⟨u, List.isPrefixOf_iff_prefix.mp hp, (List.mem_tails _ _).mp hu⟩
  · intro h
    obtain ⟨u, hp, hs⟩ := List.infix_iff_prefix_suffix.mp h
    exact List.any_eq_true.mpr ⟨u, (List.mem_tails _ _).mpr hs, List.isPrefixOf_iff_prefix.mpr hp⟩

/-! ## Lemmas on variety and recommendations -/

theorem any_isLower_iff (p : JSString) : p.any isLower = true ↔ ∃ c ∈ p, 97 ≤ c ∧ c ≤ 122 := by
  simp [List.any_eq_true, isLower]

theorem any_isUpper_iff (p : JSString) : p.any isUpper = true ↔ ∃ c ∈ p, 65 ≤ c ∧ c ≤ 90 := by
  simp [List.any_eq_true, isUpper]

theorem any_isDigit_iff (p : JSString) : p.any isDigit = true ↔ ∃ c ∈ p, 48 ≤ c ∧ c ≤ 57 := by
  simp [List.any_eq_true, isDigit]

theorem any_isSymbol_iff (p : JSString) :
    p.any isSymbol = true ↔ ∃ c ∈ p, c ∈ lit "!@#$%^&*()_+-=[]\x7b\x7d|;:,.<>?" := by
  simp [List.any_eq_true, isSymbol]

theorem filter_id_length (a b c d : Bool) :
    ([a, b, c, d].filter id).length =
      (if a then 1 else 0) + (if b then 1 else 0) + (if c then 1 else 0) + (if d then 1 else 0) := by
  cases a <;> cases b <;> cases c <;> cases d <;> rfl

/-- The recommendations of a breakdown whose variety count is the number of
its class flags: never empty, and the single congratulatory note exactly when
no trigger fires. -/
theorem generateRecommendations_spec (b : Breakdown) (c : Bool)
    (hv : b.variety.varietyCount = ([b.variety.hasLower, b.variety.hasUpper,
      b.variety.hasNumbers, b.variety.hasSymbols].filter id).length) :
    generateRecommendations b c ≠ [] ∧
    (generateRecommendations b c =
        [lit "Excellent password! Consider enabling 2FA for additional security"] ↔
      (25 ≤ b.length.score ∧ b.variety.varietyCount = 4 ∧ b.patterns.detectedPatterns = [] ∧
        b.commonality.isCommon = false ∧ c = false)) ∧
    (lit "Excellent password! Consider enabling 2FA for additional security" ∈
        generateRecommendations b c →
      (25 ≤ b.length.score ∧ b.variety.varietyCount = 4 ∧ b.patterns.detectedPatterns = [] ∧
        b.commonality.isCommon = false ∧ c = false)) := by
  obtain ⟨⟨ls, ll⟩, ⟨vs, hL, hU, hN, hS, vc⟩, ⟨ps, dp⟩, ⟨cs, ic⟩, br⟩ := b
  simp only at hv
  subst hv
  have e1 : (25 ≤ ls) ↔ decide (ls < 25) = false := by
    simp
  have e3 : dp = [] ↔ decide (dp.length > 0) = false := by
    cases dp <;> simp
  simp only [generateRecommendations, e1, e3]
  generalize decide (ls < 25) = c1
  generalize decide (dp.length > 0) = c3
  cases c1 <;> cases hL <;> cases hU <;> cases hN <;> cases hS <;> cases c3 <;> cases ic <;>
    cases c <;> decide

theorem analyzeCharacterVariety_consistent (p : JSString) :
    (analyzeCharacterVariety p).varietyCount =
      ([(analyzeCharacterVariety p).hasLower, (analyzeCharacterVariety p).hasUpper,
        (analyzeCharacterVariety p).hasNumbers, (analyzeCharacterVariety p).hasSymbols].filter
          id).length := rfl

theorem lengthScore_ge_25_iff (n : Nat) : 25 ≤ (analyzeLengthStrength n).score ↔ 12 ≤ n := by
  unfold analyzeLengthStrength
  split_ifs <;> simp <;> omega

theorem analyzePatterns_score_of_none (p : JSString)
    (h : (analyzePatterns p).detectedPatterns = []) : (analyzePatterns p).score = 20 := by
  rw [analyzePatterns_eq] at h ⊢
  obtain ⟨h1, h2⟩ := List.append_eq_nil.mp h
  have hk : structuralCount p = 0 := by
    rw [← matchedNames_length, h1]
    rfl
  have hm : keyboardCount p = 0 := by
    cases hk2 : keyboardCount p with
    | zero => rfl
    | succ n => rw [hk2] at h2; simp [List.replicate_succ] at h2
  simp [hk, hm]

/-! ## Lemmas on the passphrase and bulk generation -/

theorem pickWords_spec (count : Nat) (selected : List JSString) (w : World) :
    ∃ ws, (pickWords count selected w).1 = selected ++ ws ∧ ws.length = count ∧
      ∀ x ∈ ws, x ∈ words := by
  induction count generalizing selected w with
  | zero => exact ⟨[], by simp [pickWords], rfl, by simp⟩
  | succ n ih =>
    have hlt := randomIndex_lt w words.length (by decide)
    obtain ⟨ws, h1, h2, h3⟩ := ih
      (selected ++ [words.getD (randomIndex w.nextRandom.1 words.length) []]) w.nextRandom.2
    refine ⟨words.getD (randomIndex w.nextRandom.1 words.length) [] :: ws, ?_, by simp [h2], ?_⟩
    · simp only [pickWords, h1, List.append_assoc, List.singleton_append]
    · intro x hx
      rcases List.mem_cons.mp hx with rfl | hx
      · rw [List.getD_eq_getElem?_getD, List.getElem?_eq_getElem hlt]
        exact List.getElem_mem hlt
      · exact h3 x hx

theorem toDecimalAux_digits (fuel n : Nat) (acc : JSString) :
    ∀ c ∈ toDecimalAux fuel n acc, c ∈ acc ∨ (48 ≤ c ∧ c ≤ 57) := by
  induction fuel generalizing n acc with
  | zero => intro c hc; exact Or.inl hc
  | succ fuel ih =>
    intro c hc
    simp only [toDecimalAux] at hc
    split_ifs at hc with hn
    · rcases List.mem_cons.mp hc with rfl | hc
      · right; omega
      · exact Or.inl hc
    · rcases ih _ _ c hc with h | h
      · rcases List.mem_cons.mp h with rfl | h
        · right; omega
        · exact Or.inl h
      · exact Or.inr h

theorem toDecimal_digits (n : Nat) : ∀ c ∈ toDecimal n, 48 ≤ c ∧ c ≤ 57 := by
  intro c hc
  rcases toDecimalAux_digits _ _ _ c hc with h | h
  · cases h
  · exact h

theorem toDecimalAux_eq_toDigitsCore (fuel n : Nat) (acc : List Char) :
    toDecimalAux fuel n (acc.map Char.toNat) =
      (Nat.toDigitsCore 10 fuel n acc).map Char.toNat := by
  have hd : ∀ d, d < 10 → 48 + d = (Nat.digitChar d).toNat := by
    intro d hd
    interval_cases d <;> rfl
  induction fuel generalizing n acc with
  | zero => simp [toDecimalAux, Nat.toDigitsCore]
  | succ fuel ih =>
    simp only [toDecimalAux, Nat.toDigitsCore]
    by_cases hn : n < 10
    · have h0 : n / 10 = 0 := Nat.div_eq_of_lt hn
      have hm : n % 10 = n := Nat.mod_eq_of_lt hn
      simp [hn, h0, hm, hd n hn]
    · have h0 : ¬ n / 10 = 0 := by omega
      have := ih (n / 10) (Nat.digitChar (n % 10) :: acc)
      simp only [hn, h0, if_false]
      rw [← this]
      simp [hd (n % 10) (Nat.mod_lt _ (by norm_num))]

theorem toDecimal_eq_toDigits (n : Nat) : toDecimal n = (Nat.toDigits 10 n).map Char.toNat := by
  have := toDecimalAux_eq_toDigitsCore (n + 1) n []
  simpa [toDecimal, Nat.toDigits] using this

theorem get_set (db : BreachDatabase) (k key : JSString) (r : BreachRecord) :
    (db.set k r).get key = if key = k then some r else db.get key := by
  by_cases hk : key = k
  · subst hk
    simp [get_set_self]
  · have hne : (key == k) = false := by simpa using hk
    simp only [BreachDatabase.set, BreachDatabase.get, List.lookup_cons, hne,
      lookup_filter_ne db k key hk, hk, if_false]

theorem wellKeyed_set (db : BreachDatabase) (allowed : List JSString) (k : JSString)
    (r : BreachRecord) (h : db.wellKeyed allowed) (hk : simpleHash r.password = k)
    (hr : r.password ∈ allowed) : (db.set k r).wellKeyed allowed := by
  intro key record hget
  rw [get_set] at hget
  split_ifs at hget with hkey
  · simp only [Option.some.injEq] at hget
    subst hget
    exact ⟨hk.trans hkey.symm, hr⟩
  · exact h key record hget

theorem foldl_seedCommon_wellKeyed (allowed l : List JSString) (acc : BreachDatabase × World)
    (hl : ∀ p ∈ l, p ∈ allowed) (h : acc.1.wellKeyed allowed) :
    (l.foldl seedCommon acc).1.wellKeyed allowed := by
  induction l generalizing acc with
  | nil => exact h
  | cons x l ih =>
    exact ih _ (fun p hp => hl p (List.mem_cons_of_mem _ hp))
      (wellKeyed_set acc.1 allowed _ _ h rfl (hl x (List.mem_cons_self _ _)))

theorem foldl_seedVariant_wellKeyed (allowed : List JSString) (pwd : JSString)
    (l : List JSString) (acc : BreachDatabase × World)
    (hl : ∀ s ∈ l, pwd ++ s ∈ allowed) (h : acc.1.wellKeyed allowed) :
    (l.foldl (seedVariant pwd) acc).1.wellKeyed allowed := by
  induction l generalizing acc with
  | nil => exact h
  | cons x l ih =>
    exact ih _ (fun s hs => hl s (List.mem_cons_of_mem _ hs))
      (wellKeyed_set acc.1 allowed _ _ h rfl (hl x (List.mem_cons_self _ _)))

theorem foldl_variants_wellKeyed (allowed l : List JSString) (acc : BreachDatabase × World)
    (hl : ∀ pwd ∈ l, ∀ s ∈ variations, pwd ++ s ∈ allowed) (h : acc.1.wellKeyed allowed) :
    (l.foldl (fun acc pwd => variations.foldl (seedVariant pwd) acc) acc).1.wellKeyed allowed := by
  induction l generalizing acc with
  | nil => exact h
  | cons x l ih =>
    exact ih _ (fun p hp => hl p (List.mem_cons_of_mem _ hp))
      (foldl_seedVariant_wellKeyed allowed x variations acc (hl x (List.mem_cons_self _ _)) h)

theorem generateMockBreachDatabase_wellKeyed (w : World) :
    (generateMockBreachDatabase w).1.wellKeyed (commonPasswords ++ seededVariants) := by
  apply foldl_variants_wellKeyed
  · intro pwd hp s hs
    apply List.mem_append_right
    exact List.mem_flatMap.mpr ⟨pwd, hp, List.mem_map.mpr ⟨s, hs, rfl⟩⟩
  · apply foldl_seedCommon_wellKeyed
    · intro p hp
      exact List.mem_append_left _ hp
    · intro key record hget
      simp [BreachDatabase.get] at hget

set_option maxRecDepth 100000 in
theorem qBssword_not_seeded :
    lit "qBssword" ∉ commonPasswords ∧ lit "qBssword" ∉ seededVariants := by
  decide!

set_option maxRecDepth 100000 in
theorem seeded_hash_of_password :
    ∀ s ∈ commonPasswords ++ seededVariants,
      simpleHash s = simpleHash (lit "password") → s = lit "password" := by
  decide!

theorem analyzePassword_of_breached (tk : Toolkit) (p : JSString) (hp : p ≠ [])
    (record : BreachRecord) (h : tk.breachDatabase.get (simpleHash p) = some record) :
    ∃ a, analyzePassword tk p = .analysis a ∧ a.isCompromised = true ∧
      a.breachInfo = some record :=
  ⟨_, analyzePassword_of_ne_nil tk p hp, by simp [checkBreachDatabase, h],
    by simp [checkBreachDatabase, h]⟩

theorem buildCharset_eq_nil_of_enabledCount (config : Config) (h : enabledCount config = 0) :
    buildCharset config = [] := by
  rw [buildCharset_eq_nil_iff]
  obtain ⟨len, u, l, n, s, ea, es, ev⟩ := config
  revert h
  cases u <;> cases l <;> cases n <;> cases s <;> simp [enabledCount]

theorem generatePassword_throw_of_invalid (engine : Engine) (config : Config) (tk : Toolkit)
    (w : World) (h : config.length < 4 ∨ enabledCount config = 0) :
    generatePassword engine config tk w = .throw (failureMessage config) := by
  by_cases hlen : config.length < 4
  · simp [generatePassword, failureMessage, hlen]
  · have hcs : buildCharset config = [] :=
      buildCharset_eq_nil_of_enabledCount config (h.resolve_left hlen)
    simp [generatePassword, failureMessage, hlen, hcs]

theorem generateMultipleLoop_invalid (engine : Engine) (config : Config)
    (h : config.length < 4 ∨ enabledCount config = 0) :
    ∀ (count : Nat) (passwords : List JSString) (tk : Toolkit) (w : World),
      generateMultipleLoop engine config count passwords tk w =
        .ok (passwords ++ List.replicate count (lit "Error: " ++ failureMessage config), tk, w) := by
  intro count
  induction count with
  | zero => intro passwords tk w; simp [generateMultipleLoop]
  | succ n ih =>
    intro passwords tk w
    simp only [generateMultipleLoop, generatePassword_throw_of_invalid engine config tk w h, ih,
      List.replicate_succ, List.append_assoc, List.singleton_append]

theorem generateMultipleLoop_valid (engine : Engine) (config : Config) (h : config.valid) :
    ∀ (count : Nat) (passwords : List JSString) (tk : Toolkit) (w : World),
      ∃ new tk2 w2,
        generateMultipleLoop engine config count passwords tk w = .ok (passwords ++ new, tk2, w2) ∧
        new.length = count ∧
        (∀ e ∈ new, ∃ tka wa tkb wb, generatePassword engine config tka wa = .ok (e, tkb, wb)) ∧
        tk2.breachDatabase = tk.breachDatabase ∧
        tk2.passwordHistory.map (fun entry => entry.password) =
          tk.passwordHistory.map (fun entry => entry.password) ++ new := by
  intro count
  induction count with
  | zero =>
    intro passwords tk w
    exact ⟨[], tk, w, by simp [generateMultipleLoop], rfl, by simp, rfl, by simp⟩
  | succ n ih =>
    intro passwords tk w
    obtain ⟨picks, extra, pw, w1, t, hgen, _⟩ := generatePassword_ok engine config tk w h
    obtain ⟨new, tk2, w2, hloop, hlen, hall, hdb, hhist⟩ := ih (passwords ++ [pw])
      { tk with passwordHistory := tk.passwordHistory ++
        [{ password := pw, generated := t, options := config }] } w1
    refine ⟨pw :: new, tk2, w2, ?_, by simp [hlen], ?_, hdb, ?_⟩
    · simp only [generateMultipleLoop, hgen, hloop, List.append_assoc, List.singleton_append]
    · intro e he
      rcases List.mem_cons.mp he with rfl | he
      · exact ⟨tk, w, _, _, hgen⟩
      · exact hall e he
    · simpa using hhist

/-! ## Lemmas on the agreement of generator and analyzer -/

/-- Every character of a generator class is matched by the analyzer's test
for that class. -/
theorem characterSets_classes :
    (∀ c ∈ characterSets.lowercase, isLower c = true) ∧
    (∀ c ∈ characterSets.uppercase, isUpper c = true) ∧
    (∀ c ∈ characterSets.numbers, isDigit c = true) ∧
    (∀ c ∈ characterSets.symbols, isSymbol c = true) := by
  decide

/-- With `ensureVariety`, the returned password holds a character of every
set of `requiredSets`. -/
theorem generatePassword_has_required (engine : Engine) (config : Config) (tk : Toolkit)
    (w : World) (h : config.valid) (hv : config.ensureVariety = true) :
    ∃ pw tk2 w2, generatePassword engine config tk w = .ok (pw, tk2, w2) ∧
      ∀ s ∈ requiredSets config, ∃ c ∈ pw, c ∈ s := by
  obtain ⟨picks, extra, pw, w2, t, hgen, hperm, hforall, _, _⟩ :=
    generatePassword_ok engine config tk w h
  rw [hv] at hforall
  refine ⟨pw, _, w2, hgen, fun s hs => ?_⟩
  obtain ⟨c, hc, hcs⟩ := forall₂_exists_left hforall s hs
  exact ⟨c, hperm.mem_iff.mpr (List.mem_append_left _ hc), availableChars_subset config s c hcs⟩

/-! ## The analyzer: properties -/

/-- C1: for every non-empty password `p` and every toolkit state (so every
breach table), `analyzePassword(p).score` is the sum of the scores of
`analyzeLengthStrength`, `analyzeCharacterVariety`, `analyzePatterns` and
`checkCommonPassword`; two toolkits give the same score for the same `p`. -/
theorem analyzePassword_score_is_sum (tk : Toolkit) (p : JSString) (hp : p ≠ []) :
    (∃ a, analyzePassword tk p = .analysis a ∧
      a.score = (analyzeLengthStrength p.length).score + (analyzeCharacterVariety p).score +
        (analyzePatterns p).score + (checkCommonPassword p).score) ∧
    ∀ tk2 : Toolkit, ∃ a a2, analyzePassword tk p = .analysis a ∧
      analyzePassword tk2 p = .analysis a2 ∧ a.score = a2.score := by
  refine ⟨⟨_, analyzePassword_of_ne_nil tk p hp, by simp⟩, fun tk2 => ?_⟩
  exact ⟨_, _, analyzePassword_of_ne_nil tk p hp, analyzePassword_of_ne_nil tk2 p hp, rfl⟩

theorem analyzePassword_score_is_sum_witness :
    lit "password" ≠ [] ∧
      ∃ a, analyzePassword ⟨[], []⟩ (lit "password") = .analysis a ∧
        a.score = (analyzeLengthStrength (lit "password").length).score +
          (analyzeCharacterVariety (lit "password")).score +
          (analyzePatterns (lit "password")).score + (checkCommonPassword (lit "password")).score :=
  ⟨by decide, (analyzePassword_score_is_sum ⟨[], []⟩ (lit "password") (by decide)).1⟩

/-- C2, at the failing input: for the one-space password, which has no
character of the four classes, `charsetSize` stays 0 and the entropy returned
by `analyzePassword` is `1 * Math.log2(0) = -Infinity`, which is not `≥ 0`. -/
theorem analyzePassword_entropy_space (tk : Toolkit) :
    ∃ a, analyzePassword tk (lit " ") = .analysis a ∧ a.entropy = .negInfinity ∧
      a.entropy.nonneg = false :=
  ⟨_, analyzePassword_of_ne_nil tk (lit " ") (by decide),
    (by decide : calculateEntropy (lit " ") = .negInfinity),
    (by decide : (calculateEntropy (lit " ")).nonneg = false)⟩

/-- C3 as stated is false: it is not the case that some non-empty password
scores above 100 and some non-empty password scores below 0 (no password
scores above 93, and none scores below 0). -/
theorem score_outside_range_refuted :
    ¬ ((∃ (tk : Toolkit) (p : JSString) (a : Analysis),
          p ≠ [] ∧ analyzePassword tk p = .analysis a ∧ a.score > 100) ∧
        (∃ (tk : Toolkit) (p : JSString) (a : Analysis),
          p ≠ [] ∧ analyzePassword tk p = .analysis a ∧ a.score < 0)) := by
  rintro ⟨⟨tk, p, a, _, h, hgt⟩, _⟩
  have := (score_range tk p a h).2
  omega

/-- C3, amended: `analyzePassword` applies no clamp to the total, yet the four
sub-scores confine it to `[0, 100]`: for every non-empty password the score is
the plain sum of the sub-scores, is at most 93 (30 + 28 + 20 + 15) and is
never negative (length, variety and pattern scores add up to at least 10,
which covers the commonality penalty of 10). -/
theorem score_between_0_and_93 (tk : Toolkit) (p : JSString) (hp : p ≠ []) :
    ∃ a, analyzePassword tk p = .analysis a ∧
      a.score = (analyzeLengthStrength p.length).score + (analyzeCharacterVariety p).score +
        (analyzePatterns p).score + (checkCommonPassword p).score ∧
      0 ≤ a.score ∧ a.score ≤ 93 :=
  ⟨_, analyzePassword_of_ne_nil tk p hp, by simp,
    score_range tk p _ (analyzePassword_of_ne_nil tk p hp)⟩

theorem score_between_0_and_93_witness :
    lit "123456" ≠ [] ∧
      ∃ a, analyzePassword ⟨[], []⟩ (lit "123456") = .analysis a ∧
        0 ≤ a.score ∧ a.score ≤ 93 :=
  ⟨by decide, by
    obtain ⟨a, h, _, hb⟩ := score_between_0_and_93 ⟨[], []⟩ (lit "123456") (by decide)
    exact ⟨a, h, hb⟩⟩

/-- C8: for every password `p` of the fixed common-password list, every
seeding of the breach table (random counts and dates) and every history,
`analyzePassword(p)` has `isCompromised = true`, commonality score -10 and
strength "Very Weak" or "Weak". -/
theorem common_password_is_compromised (w : World) (history : List HistoryEntry)
    (p : JSString) (hp : p ∈ commonPasswords) :
    ∃ a, analyzePassword
        { passwordHistory := history, breachDatabase := (generateMockBreachDatabase w).1 } p =
          .analysis a ∧
      a.isCompromised = true ∧ a.breakdown.commonality.score = -10 ∧
      (a.strength = .veryWeak ∨ a.strength = .weak) := by
  obtain ⟨hne, hscore, hstrength⟩ := commonPasswords_scores p hp
  exact ⟨_, analyzePassword_of_ne_nil _ p hne, generateMockBreachDatabase_common w p hp,
    hscore, hstrength⟩

theorem common_password_is_compromised_witness :
    lit "password" ∈ commonPasswords ∧
      ∃ a, analyzePassword (Toolkit.new sampleWorld).1 (lit "password") = .analysis a ∧
        a.isCompromised = true ∧ a.breakdown.commonality.score = -10 ∧
        (a.strength = .veryWeak ∨ a.strength = .weak) :=
  ⟨by decide, common_password_is_compromised sampleWorld [] (lit "password") (by decide)⟩

/-- C9: `analyzePassword` returns the error-shaped result for the empty string,
and for every non-empty string it returns an analysis (a record with score,
strength, entropy, breakdown and recommendations), never the error shape. The
function is total: no case throws. -/
theorem analyzePassword_error_iff_empty (tk : Toolkit) :
    analyzePassword tk [] = .error (lit "Password must be a non-empty string") ∧
    (∀ p : JSString, p ≠ [] → ∃ a, analyzePassword tk p = .analysis a) ∧
    (∀ p : JSString, (∃ msg, analyzePassword tk p = .error msg) ↔ p = []) := by
  refine ⟨rfl, fun p hp => ⟨_, analyzePassword_of_ne_nil tk p hp⟩, fun p => ⟨?_, ?_⟩⟩
  · rintro ⟨msg, h⟩
    by_contra hp
    rw [analyzePassword_of_ne_nil tk p hp] at h
    exact AnalysisResult.noConfusion h
  · rintro rfl
    exact ⟨_, rfl⟩

theorem analyzePassword_error_iff_empty_witness :
    lit "Tr0ub4dor&3" ≠ [] ∧ ∃ a, analyzePassword ⟨[], []⟩ (lit "Tr0ub4dor&3") = .analysis a :=
  ⟨by decide, (analyzePassword_error_iff_empty ⟨[], []⟩).2.1 (lit "Tr0ub4dor&3") (by decide)⟩

/-- C10: `analyzePatterns(p).score` is `max(0, max(0, 20 - 5k) - 3m)`, the score
worded by the specification (floor at 0 before the keyboard check), with `k`
the number of structural patterns matching `p` and `m` the number of keyboard
substrings in the lower-cased `p`; it is also the single final clamp
`max(0, 20 - 5k - 3m)`; `detectedPatterns` is the matched structural names in
the order checked followed by one 'Keyboard pattern' per keyboard substring
found, `k + m` entries in all. -/
theorem analyzePatterns_refines_spec (p : JSString) :
    (analyzePatterns p).score = patternScoreSpec (structuralCount p) (keyboardCount p) ∧
    (analyzePatterns p).score =
      max 0 (20 - 5 * (structuralCount p : Int) - 3 * (keyboardCount p : Int)) ∧
    (analyzePatterns p).detectedPatterns =
      matchedNames p ++ List.replicate (keyboardCount p) (lit "Keyboard pattern") ∧
    (analyzePatterns p).detectedPatterns.length = structuralCount p + keyboardCount p := by
  rw [analyzePatterns_eq, patternScoreSpec_eq]
  refine ⟨rfl, rfl, rfl, ?_⟩
  simp [matchedNames_length]

/-! ## The generator: properties -/

/-- C4: for every config, toolkit state and random source, `generatePassword`
throws if and only if `config.length < 4` or the charset left after the
optional removal of the ambiguous characters is empty, and otherwise it
returns; the charset is empty exactly when none of the four inclusion flags is
set, since removing `il1Lo0O` empties none of the four classes. -/
theorem generatePassword_throws_iff (engine : Engine) (config : Config) (tk : Toolkit)
    (w : World) :
    ((∃ msg, generatePassword engine config tk w = .throw msg) ↔
      (config.length < 4 ∨ buildCharset config = [])) ∧
    ((∃ r, generatePassword engine config tk w = .ok r) ↔
      ¬ (config.length < 4 ∨ buildCharset config = [])) ∧
    (buildCharset config = [] ↔
      (config.includeLowercase = false ∧ config.includeUppercase = false ∧
        config.includeNumbers = false ∧ config.includeSymbols = false)) ∧
    (removeAmbiguous characterSets.lowercase ≠ [] ∧ removeAmbiguous characterSets.uppercase ≠ [] ∧
      removeAmbiguous characterSets.numbers ≠ [] ∧ removeAmbiguous characterSets.symbols ≠ []) := by
  refine ⟨?_, ?_, buildCharset_eq_nil_iff config, by decide⟩
  all_goals
    by_cases hlen : config.length < 4
    · simp [generatePassword, hlen]
    · by_cases hcs : buildCharset config = []
      · simp [generatePassword, hlen, hcs]
      · have hvalid : config.valid := by
          refine ⟨not_lt.mp hlen, ?_⟩
          by_contra hk
          apply hcs
          rw [buildCharset_eq_nil_iff]
          obtain ⟨len, u, l, n, s, ea, es, ev⟩ := config
          revert hk
          cases u <;> cases l <;> cases n <;> cases s <;> simp [enabledCount]
        obtain ⟨picks, extra, pw, w2, t, hgen, _⟩ := generatePassword_ok engine config tk w hvalid
        simp [hgen, hlen, hcs]

/-- C5: for every valid config (length `L ≥ 4`, at least one class enabled),
toolkit state and random source, `generatePassword` returns a string of length
exactly `L` when `ensureVariety` is false and of length exactly `max(L, k)`
when `ensureVariety` is true and `k` classes are enabled. -/
theorem generatePassword_length (engine : Engine) (config : Config) (tk : Toolkit) (w : World)
    (h : config.valid) :
    ∃ pw tk2 w2, generatePassword engine config tk w = .ok (pw, tk2, w2) ∧
      (config.ensureVariety = false → (pw.length : Int) = config.length) ∧
      (config.ensureVariety = true →
        (pw.length : Int) = max config.length (enabledCount config : Int)) := by
  obtain ⟨picks, extra, pw, w2, t, hgen, hperm, hforall, _, hl⟩ :=
    generatePassword_ok engine config tk w h
  refine ⟨pw, _, w2, hgen, ?_, ?_⟩
  · intro hv
    rw [hv] at hforall
    have hp : picks.length = 0 := by simpa using hforall.length_eq
    have := h.1
    rw [hperm.length_eq, List.length_append, Nat.cast_add]
    rw [hp] at hl ⊢
    simp only [Nat.cast_zero, sub_zero, zero_add] at hl ⊢
    omega
  · intro hv
    rw [hv] at hforall
    have hp : picks.length = enabledCount config := by
      simpa [requiredSets_length] using hforall.length_eq
    rw [hperm.length_eq, List.length_append, Nat.cast_add]
    rw [hp] at hl ⊢
    omega

theorem generatePassword_length_witness :
    (({ length := 12, includeSymbols := false } : Config).valid) ∧
      ∃ pw tk2 w2,
        generatePassword insertionEngine { length := 12, includeSymbols := false } ⟨[], []⟩
          sampleWorld = .ok (pw, tk2, w2) ∧ (pw.length : Int) = 12 := by
  refine ⟨by decide, ?_⟩
  obtain ⟨pw, tk2, w2, hgen, _, hlen⟩ :=
    generatePassword_length insertionEngine { length := 12, includeSymbols := false } ⟨[], []⟩
      sampleWorld (by decide)
  exact ⟨pw, tk2, w2, hgen, (hlen rfl).trans (by decide)⟩

/-- C6: for every valid config, toolkit state and random source, every
character of the string returned by `generatePassword` belongs to the charset
built from the config (the enabled classes, minus the ambiguous characters
when `excludeAmbiguous` is set), so no foreign text such as `undefined` is
appended; with `excludeAmbiguous` the output has none of `il1Lo0O`; and
`generatePassword({length: 20, includeSymbols: false})` returns a string with
no character of the symbol set. -/
theorem generatePassword_chars_in_charset (engine : Engine) (config : Config) (tk : Toolkit)
    (w : World) (h : config.valid) :
    (∃ pw tk2 w2, generatePassword engine config tk w = .ok (pw, tk2, w2) ∧
      (∀ c ∈ pw, c ∈ buildCharset config) ∧
      (config.excludeAmbiguous = true → ∀ c ∈ pw, c ∉ characterSets.ambiguous)) ∧
    (∃ pw tk2 w2,
      generatePassword engine { length := 20, includeSymbols := false } tk w = .ok (pw, tk2, w2) ∧
      ∀ c ∈ pw, c ∉ characterSets.symbols) := by
  have key : ∀ cfg : Config, cfg.valid →
      ∃ pw tk2 w2, generatePassword engine cfg tk w = .ok (pw, tk2, w2) ∧
        ∀ c ∈ pw, c ∈ buildCharset cfg := by
    intro cfg hcfg
    obtain ⟨picks, extra, pw, w2, t, hgen, hperm, hforall, hmem, _⟩ :=
      generatePassword_ok engine cfg tk w hcfg
    refine ⟨pw, _, w2, hgen, fun c hc => ?_⟩
    rcases List.mem_append.mp (hperm.mem_iff.mp hc) with hc | hc
    · obtain ⟨s, hs, hcs⟩ := forall₂_exists_right hforall c hc
      have hs2 : s ∈ requiredSets cfg := by
        split at hs
        · exact hs
        · cases hs
      exact (requiredSets_available cfg s hs2).2 c hcs
    · exact hmem c hc
  constructor
  · obtain ⟨pw, tk2, w2, hgen, hmem⟩ := key config h
    exact ⟨pw, tk2, w2, hgen, hmem, fun hx c hc =>
      buildCharset_not_ambiguous config hx c (hmem c hc)⟩
  · obtain ⟨pw, tk2, w2, hgen, hmem⟩ := key { length := 20, includeSymbols := false } (by decide)
    refine ⟨pw, tk2, w2, hgen, fun c hc => ?_⟩
    have hno : ∀ c ∈ buildCharset { length := 20, includeSymbols := false },
        c ∉ characterSets.symbols := by decide
    exact hno c (hmem c hc)

theorem generatePassword_chars_in_charset_witness :
    (({ length := 8, excludeAmbiguous := true } : Config).valid) ∧
      ∃ pw tk2 w2,
        generatePassword insertionEngine { length := 8, excludeAmbiguous := true } ⟨[], []⟩
          sampleWorld = .ok (pw, tk2, w2) ∧
        ∀ c ∈ pw, c ∉ characterSets.ambiguous := by
  refine ⟨by decide, ?_⟩
  obtain ⟨⟨pw, tk2, w2, hgen, _, hamb⟩, _⟩ :=
    generatePassword_chars_in_charset insertionEngine { length := 8, excludeAmbiguous := true }
      ⟨[], []⟩ sampleWorld (by decide)
  exact ⟨pw, tk2, w2, hgen, hamb rfl⟩

/-- C7: for every valid config with `ensureVariety` set, toolkit state and
random source, the string returned by `generatePassword` (after the final
shuffle, with or without `excludeAmbiguous`) contains at least one character
of each enabled class: lowercase, uppercase, numbers, symbols. -/
theorem generatePassword_variety (engine : Engine) (config : Config) (tk : Toolkit) (w : World)
    (h : config.valid) (hv : config.ensureVariety = true) :
    ∃ pw tk2 w2, generatePassword engine config tk w = .ok (pw, tk2, w2) ∧
      (config.includeLowercase = true → ∃ c ∈ pw, c ∈ characterSets.lowercase) ∧
      (config.includeUppercase = true → ∃ c ∈ pw, c ∈ characterSets.uppercase) ∧
      (config.includeNumbers = true → ∃ c ∈ pw, c ∈ characterSets.numbers) ∧
      (config.includeSymbols = true → ∃ c ∈ pw, c ∈ characterSets.symbols) := by
  obtain ⟨picks, extra, pw, w2, t, hgen, hperm, hforall, _, _⟩ :=
    generatePassword_ok engine config tk w h
  rw [hv] at hforall
  have key : ∀ s ∈ requiredSets config, ∃ c ∈ pw, c ∈ s := by
    intro s hs
    obtain ⟨c, hc, hcs⟩ := forall₂_exists_left hforall s hs
    exact ⟨c, hperm.mem_iff.mpr (List.mem_append_left _ hc), availableChars_subset config s c hcs⟩
  obtain ⟨m1, m2, m3, m4⟩ := mem_requiredSets config
  exact ⟨pw, _, w2, hgen, fun hf => key _ (m1 hf), fun hf => key _ (m2 hf),
    fun hf => key _ (m3 hf), fun hf => key _ (m4 hf)⟩

theorem generatePassword_variety_witness :
    (({ length := 4, excludeAmbiguous := true } : Config).valid) ∧
      ∃ pw tk2 w2,
        generatePassword insertionEngine { length := 4, excludeAmbiguous := true } ⟨[], []⟩
          sampleWorld = .ok (pw, tk2, w2) ∧
        (∃ c ∈ pw, c ∈ characterSets.lowercase) ∧ (∃ c ∈ pw, c ∈ characterSets.symbols) := by
  refine ⟨by decide, ?_⟩
  obtain ⟨pw, tk2, w2, hgen, hl, _, _, hs⟩ :=
    generatePassword_variety insertionEngine { length := 4, excludeAmbiguous := true } ⟨[], []⟩
      sampleWorld (by decide) rfl
  exact ⟨pw, tk2, w2, hgen, hl rfl, hs rfl⟩

/-! ## The sub-scorers, the hash and the recommendations: properties -/

/-- C11: for every string `s` (a sequence of UTF-16 code units), `simpleHash(s)`
is the lowercase hexadecimal rendering of `|h|`, where `h` folds
`hash = hash*31 + charCode` from 0 over the code units, wrapped to a signed
32-bit integer after every step; the step of the code,
`((hash << 5) - hash) + char` followed by `hash & hash`, equals the wrapped
`hash*31 + charCode`, and the wrap lands in the signed 32-bit range and keeps
the value modulo `2^32`. -/
theorem simpleHash_refines_spec (s : JSString) :
    simpleHash s = (Nat.toDigits 16 (s.foldl hashStepSpec 0).natAbs).map Char.toNat ∧
    (∀ (hash : Int) (char : Nat),
      toInt32 ((toInt32 (hash * 32) - hash) + char) = toInt32 (hash * 31 + char)) ∧
    (∀ x : Int, -2147483648 ≤ toInt32 x ∧ toInt32 x < 2147483648 ∧
      toInt32 x % 4294967296 = x % 4294967296) := by
  refine ⟨?_, fun hash char => hashStep_eq_spec hash char, fun x =>
    ⟨(toInt32_range x).1, (toInt32_range x).2, toInt32_emod x⟩⟩
  rw [simpleHash, toHex_eq_toDigits, foldl_hashStep_eq]

/-- C12: `checkCommonPassword(p).isCommon` is true if and only if, on lower-cased
strings, `p` contains some listed common password as a substring or `p` is
itself a substring of one; the score is -10 when `isCommon` is true and 15
otherwise; the short fragment `a` is flagged as common. -/
theorem checkCommonPassword_iff (p : JSString) :
    ((checkCommonPassword p).isCommon = true ↔
      ∃ common ∈ commonPasswords,
        toLowerCase common <:+: toLowerCase p ∨ toLowerCase p <:+: toLowerCase common) ∧
    (checkCommonPassword p).score = (if (checkCommonPassword p).isCommon then -10 else 15) ∧
    (checkCommonPassword (lit "a")).isCommon = true := by
  refine ⟨?_, rfl, by decide⟩
  simp only [checkCommonPassword, List.any_eq_true, Bool.or_eq_true, includes_iff_infix]

/-- C13: `determineStrength(s)` is "Very Strong" for `s ≥ 80`, otherwise "Strong"
for `s ≥ 60`, otherwise "Moderate" for `s ≥ 40`, otherwise "Weak" for `s ≥ 20`,
otherwise "Very Weak"; and for every non-empty `p` the strength returned by
`analyzePassword` is `determineStrength` of the score it returns. -/
theorem strength_from_score (tk : Toolkit) :
    (∀ s : Int,
      (80 ≤ s → determineStrength s = .veryStrong) ∧
      (60 ≤ s ∧ s < 80 → determineStrength s = .strong) ∧
      (40 ≤ s ∧ s < 60 → determineStrength s = .moderate) ∧
      (20 ≤ s ∧ s < 40 → determineStrength s = .weak) ∧
      (s < 20 → determineStrength s = .veryWeak)) ∧
    (Strength.veryStrong.label = lit "Very Strong" ∧ Strength.strong.label = lit "Strong" ∧
      Strength.moderate.label = lit "Moderate" ∧ Strength.weak.label = lit "Weak" ∧
      Strength.veryWeak.label = lit "Very Weak") ∧
    (∀ p : JSString, p ≠ [] →
      ∃ a, analyzePassword tk p = .analysis a ∧ a.strength = determineStrength a.score) := by
  refine ⟨fun s => ?_, ⟨rfl, rfl, rfl, rfl, rfl⟩, fun p hp =>
    ⟨_, analyzePassword_of_ne_nil tk p hp, rfl⟩⟩
  unfold determineStrength
  refine ⟨fun h => ?_, fun h => ?_, fun h => ?_, fun h => ?_, fun h => ?_⟩ <;> split_ifs <;>
    first | rfl | omega

theorem strength_from_score_witness :
    lit "password" ≠ [] ∧
      ∃ a, analyzePassword ⟨[], []⟩ (lit "password") = .analysis a ∧
        a.strength = determineStrength a.score :=
  ⟨by decide, (strength_from_score ⟨[], []⟩).2.2 (lit "password") (by decide)⟩

/-- C14: for every natural number `n`, `analyzeLengthStrength(n).score` is 0 when
`n < 8`, 15 when `8 ≤ n ≤ 11`, 25 when `12 ≤ n ≤ 15` and 30 when `n ≥ 16`. -/
theorem analyzeLengthStrength_score (n : Nat) :
    (n < 8 → (analyzeLengthStrength n).score = 0) ∧
    (8 ≤ n ∧ n ≤ 11 → (analyzeLengthStrength n).score = 15) ∧
    (12 ≤ n ∧ n ≤ 15 → (analyzeLengthStrength n).score = 25) ∧
    (16 ≤ n → (analyzeLengthStrength n).score = 30) := by
  unfold analyzeLengthStrength
  refine ⟨fun h => ?_, fun h => ?_, fun h => ?_, fun h => ?_⟩ <;> split_ifs <;>
    first | rfl | omega

theorem analyzeLengthStrength_score_witness :
    (8 ≤ 9 ∧ 9 ≤ 11) ∧ (analyzeLengthStrength 9).score = 15 :=
  ⟨by decide, (analyzeLengthStrength_score 9).2.1 (by decide)⟩

/-- C15: `analyzeCharacterVariety(p).varietyCount` is the number of the four
predicates (`p` has a character in a-z, in A-Z, a digit 0-9, a character of
the fixed punctuation set) that hold, the score is 7 times that count, so it is
one of 0, 7, 14, 21, 28. -/
theorem analyzeCharacterVariety_count (p : JSString) :
    (analyzeCharacterVariety p).varietyCount =
      (if ∃ c ∈ p, 97 ≤ c ∧ c ≤ 122 then 1 else 0) + (if ∃ c ∈ p, 65 ≤ c ∧ c ≤ 90 then 1 else 0) +
        (if ∃ c ∈ p, 48 ≤ c ∧ c ≤ 57 then 1 else 0) +
        (if ∃ c ∈ p, c ∈ lit "!@#$%^&*()_+-=[]\x7b\x7d|;:,.<>?" then 1 else 0) ∧
    (analyzeCharacterVariety p).score = 7 * ((analyzeCharacterVariety p).varietyCount : Int) ∧
    ((analyzeCharacterVariety p).score = 0 ∨ (analyzeCharacterVariety p).score = 7 ∨
      (analyzeCharacterVariety p).score = 14 ∨ (analyzeCharacterVariety p).score = 21 ∨
      (analyzeCharacterVariety p).score = 28) := by
  refine ⟨?_, analyzeCharacterVariety_score p, ?_⟩
  · simp only [analyzeCharacterVariety, filter_id_length, ← any_isLower_iff, ← any_isUpper_iff,
      ← any_isDigit_iff, ← any_isSymbol_iff]
  · have h1 := varietyCount_le_four p
    have h2 := analyzeCharacterVariety_score p
    omega

/-- C16: for every non-empty password `p`, the recommendations returned by
`analyzePassword` are never empty; they are exactly the single congratulatory
note if and only if no trigger fires (length sub-score at least 25, which is
`p.length ≥ 12`, variety count 4, no pattern detected, not flagged common, not
compromised); otherwise the congratulatory note is absent. -/
theorem recommendations_congratulation_iff (tk : Toolkit) (p : JSString) (hp : p ≠ []) :
    ∃ a, analyzePassword tk p = .analysis a ∧ a.recommendations ≠ [] ∧
      (a.recommendations =
          [lit "Excellent password! Consider enabling 2FA for additional security"] ↔
        (25 ≤ a.breakdown.length.score ∧ a.breakdown.variety.varietyCount = 4 ∧
          a.breakdown.patterns.detectedPatterns = [] ∧ a.breakdown.commonality.isCommon = false ∧
          a.isCompromised = false)) ∧
      (¬ (25 ≤ a.breakdown.length.score ∧ a.breakdown.variety.varietyCount = 4 ∧
          a.breakdown.patterns.detectedPatterns = [] ∧ a.breakdown.commonality.isCommon = false ∧
          a.isCompromised = false) →
        lit "Excellent password! Consider enabling 2FA for additional security" ∉
          a.recommendations) ∧
      (25 ≤ a.breakdown.length.score ↔ 12 ≤ p.length) := by
  obtain ⟨h1, h2, h3⟩ := generateRecommendations_spec
    { length := analyzeLengthStrength p.length, variety := analyzeCharacterVariety p,
      patterns := analyzePatterns p, commonality := checkCommonPassword p,
      breach := checkBreachDatabase tk.breachDatabase p }
    (checkBreachDatabase tk.breachDatabase p).isCompromised
    (analyzeCharacterVariety_consistent p)
  exact ⟨_, analyzePassword_of_ne_nil tk p hp, h1, h2, fun hn hm => hn (h3 hm),
    lengthScore_ge_25_iff p.length⟩

theorem recommendations_congratulation_iff_witness :
    lit "MyP@ssw0rd2024!" ≠ [] ∧
      ∃ a, analyzePassword ⟨[], []⟩ (lit "MyP@ssw0rd2024!") = .analysis a ∧
        a.recommendations ≠ [] := by
  refine ⟨by decide, ?_⟩
  obtain ⟨a, h, hne, _⟩ :=
    recommendations_congratulation_iff ⟨[], []⟩ (lit "MyP@ssw0rd2024!") (by decide)
  exact ⟨a, h, hne⟩

/-! ## Passphrases, bulk generation and the breach lookup: properties -/

/-- C17: for every word count, separator and random source,
`generatePassphrase(wordCount, separator)` is the separator-join of exactly
`wordCount + 1` tokens: `wordCount` words of the fixed list followed by the
decimal rendering of one integer below 1000; `generatePassphrase(4, "-")`
splits on the dash into exactly 5 tokens, since no word and no number token
contains a dash. -/
theorem generatePassphrase_tokens (wordCount : Nat) (separator : JSString) (w : World) :
    (∃ (ws : List JSString) (n : Nat), ws.length = wordCount ∧ (∀ x ∈ ws, x ∈ words) ∧
      n < 1000 ∧
      (generatePassphrase wordCount separator w).1 =
        separator.intercalate (ws ++ [(Nat.toDigits 10 n).map Char.toNat]) ∧
      (ws ++ [(Nat.toDigits 10 n).map Char.toNat]).length = wordCount + 1) ∧
    ((generatePassphrase 4 (lit "-") w).1.splitOn 45).length = 5 ∧
    (∀ x ∈ words, 45 ∉ x) ∧ (∀ n : Nat, 45 ∉ (Nat.toDigits 10 n).map Char.toNat) := by
  have hwords : ∀ x ∈ words, 45 ∉ x := by decide
  have hnum : ∀ n : Nat, 45 ∉ (Nat.toDigits 10 n).map Char.toNat := by
    intro n hn
    rw [← toDecimal_eq_toDigits] at hn
    have := toDecimal_digits n 45 hn
    omega
  have key : ∀ (wc : Nat) (sep : JSString), ∃ (ws : List JSString) (n : Nat),
      ws.length = wc ∧ (∀ x ∈ ws, x ∈ words) ∧ n < 1000 ∧
      (generatePassphrase wc sep w).1 =
        sep.intercalate (ws ++ [(Nat.toDigits 10 n).map Char.toNat]) := by
    intro wc sep
    obtain ⟨ws, h1, h2, h3⟩ := pickWords_spec wc [] w
    refine ⟨ws, randomIndex (pickWords wc [] w).2.nextRandom.1 1000, h2, h3,
      randomIndex_lt _ 1000 (by norm_num), ?_⟩
    simp only [generatePassphrase, join, h1, List.nil_append, toDecimal_eq_toDigits]
  refine ⟨?_, ?_, hwords, hnum⟩
  · obtain ⟨ws, n, h1, h2, h3, h4⟩ := key wordCount separator
    exact ⟨ws, n, h1, h2, h3, h4, by simp [h1]⟩
  · obtain ⟨ws, n, h1, h2, h3, h4⟩ := key 4 (lit "-")
    rw [h4]
    have hsep : lit "-" = [45] := by decide
    rw [hsep, List.splitOn_intercalate]
    · simp [h1]
    · intro l hl
      rcases List.mem_append.mp hl with hl | hl
      · exact hwords l (h2 l hl)
      · have : l = (Nat.toDigits 10 n).map Char.toNat := by simpa using hl
        subst this
        exact hnum n
    · simp

/-- C18: for every count, config, toolkit state and random source,
`generateMultiplePasswords(count, config)` returns (it never throws) a list of
exactly `count` entries; for a valid config every entry is a password returned
by a call of `generatePassword` and the history grows by these passwords; for
an invalid config (length below 4 or no class enabled) every entry is the
marker `Error: ` followed by the message thrown, and the toolkit state (so
the password history) is left unchanged. -/
theorem generateMultiplePasswords_spec (engine : Engine) (count : Nat) (config : Config)
    (tk : Toolkit) (w : World) :
    ∃ list tk2 w2,
      generateMultiplePasswords engine count config tk w = .ok (list, tk2, w2) ∧
      list.length = count ∧
      (config.valid →
        (∀ e ∈ list, ∃ tka wa tkb wb, generatePassword engine config tka wa = .ok (e, tkb, wb)) ∧
        tk2.passwordHistory.map (fun entry => entry.password) =
          tk.passwordHistory.map (fun entry => entry.password) ++ list) ∧
      (config.length < 4 ∨ enabledCount config = 0 →
        generatePassword engine config tk w = .throw (failureMessage config) ∧
        (∀ e ∈ list, e = lit "Error: " ++ failureMessage config) ∧ tk2 = tk ∧ w2 = w) := by
  by_cases h : config.valid
  · obtain ⟨new, tk2, w2, hloop, hlen, hall, _, hhist⟩ :=
      generateMultipleLoop_valid engine config h count [] tk w
    refine ⟨new, tk2, w2, by simpa [generateMultiplePasswords] using hloop, hlen,
      fun _ => ⟨hall, hhist⟩, fun hinv => ?_⟩
    exfalso
    have h1 := h.1
    have h2 := h.2
    omega
  · have hinv : config.length < 4 ∨ enabledCount config = 0 := by
      unfold Config.valid at h
      omega
    refine ⟨List.replicate count (lit "Error: " ++ failureMessage config), tk, w, ?_, by simp,
      fun hv => absurd hv h, fun _ => ⟨generatePassword_throw_of_invalid engine config tk w hinv,
        fun e he => (List.mem_replicate.mp he).2, rfl, rfl⟩⟩
    simp [generateMultiplePasswords, generateMultipleLoop_invalid engine config hinv]

theorem generateMultiplePasswords_spec_witness :
    (({ length := 8 } : Config).valid) ∧
      ∃ list tk2 w2,
        generateMultiplePasswords insertionEngine 3 { length := 8 } ⟨[], []⟩ sampleWorld =
          .ok (list, tk2, w2) ∧
        list.length = 3 ∧
        tk2.passwordHistory.map (fun entry => entry.password) = list := by
  refine ⟨by decide, ?_⟩
  obtain ⟨list, tk2, w2, h, hlen, hvalid, _⟩ :=
    generateMultiplePasswords_spec insertionEngine 3 { length := 8 } ⟨[], []⟩ sampleWorld
  exact ⟨list, tk2, w2, h, hlen, by simpa using (hvalid (by decide)).2⟩

/-- C19: the breach check is keyed on the 32-bit hash only: `qBssword` is neither
a listed common password nor one of the seeded suffix variants, yet its
`simpleHash` equals that of `password`, so for every seeding of the breach
table `analyzePassword("qBssword")` has `isCompromised = true` with a
`breachInfo.password` (namely `password`) different from the password
analysed. -/
theorem breach_false_positive (w : World) (history : List HistoryEntry) :
    lit "qBssword" ∉ commonPasswords ∧ lit "qBssword" ∉ seededVariants ∧
    simpleHash (lit "qBssword") = simpleHash (lit "password") ∧
    ∃ a record, analyzePassword
        { passwordHistory := history, breachDatabase := (generateMockBreachDatabase w).1 }
        (lit "qBssword") = .analysis a ∧
      a.isCompromised = true ∧ a.breachInfo = some record ∧
      record.password = lit "password" ∧ record.password ≠ lit "qBssword" := by
  have hkey : simpleHash (lit "qBssword") = simpleHash (lit "password") := by decide
  refine ⟨qBssword_not_seeded.1, qBssword_not_seeded.2, hkey, ?_⟩
  have hsome := generateMockBreachDatabase_common w (lit "password") (by decide)
  obtain ⟨record, hrec⟩ := Option.isSome_iff_exists.mp hsome
  obtain ⟨hhash, hmem⟩ := generateMockBreachDatabase_wellKeyed w _ _ hrec
  have hpw := seeded_hash_of_password _ hmem hhash
  rw [← hkey] at hrec
  obtain ⟨a, ha, hc, hb⟩ := analyzePassword_of_breached
    { passwordHistory := history, breachDatabase := (generateMockBreachDatabase w).1 }
    (lit "qBssword") (by decide) record hrec
  refine ⟨a, record, ha, hc, hb, hpw, ?_⟩
  rw [hpw]
  decide

/-- C20: for every non-empty password `p`, if the recommendations of
`analyzePassword(p)` are exactly the congratulatory note then the score is at
least 88 and the strength is "Very Strong"; and if `p` is flagged common
(commonality score -10) then the score is at most 68, so the strength is not
"Very Strong". -/
theorem congratulated_is_very_strong (tk : Toolkit) (p : JSString) (hp : p ≠ []) :
    ∃ a, analyzePassword tk p = .analysis a ∧
      (a.recommendations =
          [lit "Excellent password! Consider enabling 2FA for additional security"] →
        88 ≤ a.score ∧ a.strength = .veryStrong) ∧
      (a.breakdown.commonality.score = -10 → a.score ≤ 68 ∧ a.strength ≠ .veryStrong) := by
  obtain ⟨_, h2, _⟩ := generateRecommendations_spec
    { length := analyzeLengthStrength p.length, variety := analyzeCharacterVariety p,
      patterns := analyzePatterns p, commonality := checkCommonPassword p,
      breach := checkBreachDatabase tk.breachDatabase p }
    (checkBreachDatabase tk.breachDatabase p).isCompromised
    (analyzeCharacterVariety_consistent p)
  have hl := analyzeLengthStrength_score_bounds p.length
  have hv := analyzeCharacterVariety_score p
  have hv4 := varietyCount_le_four p
  have hps := analyzePatterns_score_bounds p
  refine ⟨_, analyzePassword_of_ne_nil tk p hp, fun hrec => ?_, fun hcom => ?_⟩
  · obtain ⟨c1, c2, c3, c4, _⟩ := h2.mp hrec
    simp only at c1 c2 c3 c4
    have hp20 := analyzePatterns_score_of_none p c3
    have hc : (checkCommonPassword p).score = 15 := by
      have hdef : (checkCommonPassword p).score =
          if (checkCommonPassword p).isCommon then -10 else 15 := rfl
      rw [hdef, c4]
      rfl
    have hscore : 88 ≤ 0 + (analyzeLengthStrength p.length).score +
        (analyzeCharacterVariety p).score + (analyzePatterns p).score +
        (checkCommonPassword p).score := by
      rw [c2] at hv
      omega
    refine ⟨hscore, ?_⟩
    show determineStrength _ = _
    unfold determineStrength
    rw [if_pos (by omega)]
  · simp only at hcom
    have hscore : 0 + (analyzeLengthStrength p.length).score +
        (analyzeCharacterVariety p).score + (analyzePatterns p).score +
        (checkCommonPassword p).score ≤ 68 := by omega
    refine ⟨hscore, ?_⟩
    show determineStrength _ ≠ _
    unfold determineStrength
    rw [if_neg (by omega)]
    split_ifs <;> simp

theorem congratulated_is_very_strong_witness :
    (lit "MyP@ssw0rd2024!" ≠ [] ∧
      ∃ a, analyzePassword ⟨[], []⟩ (lit "MyP@ssw0rd2024!") = .analysis a ∧
        a.recommendations =
          [lit "Excellent password! Consider enabling 2FA for additional security"] ∧
        88 ≤ a.score ∧ a.strength = .veryStrong) ∧
    (lit "password" ≠ [] ∧
      ∃ a, analyzePassword ⟨[], []⟩ (lit "password") = .analysis a ∧
        a.breakdown.commonality.score = -10 ∧ a.score ≤ 68 ∧ a.strength ≠ .veryStrong) := by
  refine ⟨⟨by decide, ?_⟩, ⟨by decide, ?_⟩⟩
  · obtain ⟨a, h, hrec, _⟩ :=
      congratulated_is_very_strong ⟨[], []⟩ (lit "MyP@ssw0rd2024!") (by decide)
    have hnote : a.recommendations =
        [lit "Excellent password! Consider enabling 2FA for additional security"] := by
      rw [analyzePassword_of_ne_nil ⟨[], []⟩ (lit "MyP@ssw0rd2024!") (by decide)] at h
      injection h with h
      subst h
      decide
    exact ⟨a, h, hnote, hrec hnote⟩
  · obtain ⟨a, h, _, hcom⟩ :=
      congratulated_is_very_strong ⟨[], []⟩ (lit "password") (by decide)
    have hflag : a.breakdown.commonality.score = -10 := by
      rw [analyzePassword_of_ne_nil ⟨[], []⟩ (lit "password") (by decide)] at h
      injection h with h
      subst h
      decide
    exact ⟨a, h, hflag, hcom hflag⟩

/-! ## Generator and analyzer together: properties -/

/-- C21: the generator and the analyzer agree on the character classes: for
every config with all four inclusion flags set, `ensureVariety` set and length
at least 4 (with `excludeAmbiguous` either way), every toolkit state and every
random source, `analyzeCharacterVariety` of the string returned by
`generatePassword` reports `hasLower`, `hasUpper`, `hasNumbers` and
`hasSymbols` all true, so `varietyCount = 4` and the variety score is 28;
every character of `characterSets.symbols` is matched by the analyzer's symbol
class. -/
theorem generator_analyzer_agree (engine : Engine) (config : Config) (tk : Toolkit) (w : World)
    (hlen : 4 ≤ config.length) (hl : config.includeLowercase = true)
    (hu : config.includeUppercase = true) (hn : config.includeNumbers = true)
    (hs : config.includeSymbols = true) (hv : config.ensureVariety = true) :
    (∃ pw tk2 w2, generatePassword engine config tk w = .ok (pw, tk2, w2) ∧
      (analyzeCharacterVariety pw).hasLower = true ∧
      (analyzeCharacterVariety pw).hasUpper = true ∧
      (analyzeCharacterVariety pw).hasNumbers = true ∧
      (analyzeCharacterVariety pw).hasSymbols = true ∧
      (analyzeCharacterVariety pw).varietyCount = 4 ∧
      (analyzeCharacterVariety pw).score = 28) ∧
    (∀ c ∈ characterSets.symbols, isSymbol c = true) := by
  have hvalid : config.valid := ⟨hlen, by simp [enabledCount, hl, hu, hn, hs]⟩
  obtain ⟨pw, tk2, w2, hgen, hreq⟩ := generatePassword_has_required engine config tk w hvalid hv
  obtain ⟨m1, m2, m3, m4⟩ := mem_requiredSets config
  obtain ⟨k1, k2, k3, k4⟩ := characterSets_classes
  have a1 : pw.any isLower = true := by
    obtain ⟨c, hc, hcs⟩ := hreq _ (m1 hl)
    exact List.any_eq_true.mpr ⟨c, hc, k1 c hcs⟩
  have a2 : pw.any isUpper = true := by
    obtain ⟨c, hc, hcs⟩ := hreq _ (m2 hu)
    exact List.any_eq_true.mpr ⟨c, hc, k2 c hcs⟩
  have a3 : pw.any isDigit = true := by
    obtain ⟨c, hc, hcs⟩ := hreq _ (m3 hn)
    exact List.any_eq_true.mpr ⟨c, hc, k3 c hcs⟩
  have a4 : pw.any isSymbol = true := by
    obtain ⟨c, hc, hcs⟩ := hreq _ (m4 hs)
    exact List.any_eq_true.mpr ⟨c, hc, k4 c hcs⟩
  refine ⟨⟨pw, tk2, w2, hgen, ?_⟩, k4⟩
  simp only [analyzeCharacterVariety, a1, a2, a3, a4]
  decide

theorem generator_analyzer_agree_witness :
    (4 : Int) ≤ ({ excludeAmbiguous := true } : Config).length ∧
      ∃ pw tk2 w2,
        generatePassword insertionEngine { excludeAmbiguous := true } ⟨[], []⟩ sampleWorld =
          .ok (pw, tk2, w2) ∧
        (analyzeCharacterVariety pw).varietyCount = 4 ∧
        (analyzeCharacterVariety pw).score = 28 := by
  refine ⟨by decide, ?_⟩
  obtain ⟨⟨pw, tk2, w2, hgen, _, _, _, _, hc, hs⟩, _⟩ :=
    generator_analyzer_agree insertionEngine { excludeAmbiguous := true } ⟨[], []⟩ sampleWorld
      (by decide) rfl rfl rfl rfl rfl
  exact ⟨pw, tk2, w2, hgen, hc, hs⟩

end PasswordToolkit
